import Mathlib

/-!
The `Cloudfront` middleware of traefik-cloudfront.

A shallow embedding of `cloudfront.go` (package `traefik_cloudfront`) and of the parts
of the Go standard library it calls (`net`, `net/netip`, `net/textproto`, `strings`),
followed by theorems about `New` and `Cloudfront.ServeHTTP`.

Go values are rendered as follows.

* `string` is `String`; a byte of the string is a `Char` (all separators and digits the
  code looks for are ASCII).
* `net.IP` and `net.IPMask` are `List Nat`, one entry per byte; a `nil` result of a
  parser is `none`.
* `http.Header` is a finite map, rendered as a function `String → Option (List String)`;
  the `nil` map is `none`.
* A run-time panic is an explicit value of type `Panic`.

The standard library is followed as of Go 1.22, where `net.ParseIP` and `net.ParseCIDR`
parse through `netip.ParseAddr`. Line numbers refer to `cloudfront.go`.
-/

set_option autoImplicit false

namespace TraefikCloudfront

/-! ## Bytes and characters -/

/-- Go: `'0' <= c && c <= '9'`. -/
def isDigit (c : Char) : Bool := 48 ≤ c.toNat && c.toNat ≤ 57

/-- Go: `'a' <= c && c <= 'z'`. -/
def isLower (c : Char) : Bool := 97 ≤ c.toNat && c.toNat ≤ 122

/-- Go: `'A' <= c && c <= 'Z'`. -/
def isUpper (c : Char) : Bool := 65 ≤ c.toNat && c.toNat ≤ 90

/-- Value of a hexadecimal digit, as the three branches of the scanning loop of
`netip.parseIPv6` compute it; `none` for every other byte. -/
def hexVal (c : Char) : Option Nat :=
  if isDigit c then some (c.toNat - 48)
  else if 97 ≤ c.toNat && c.toNat ≤ 102 then some (c.toNat - 97 + 10)
  else if 65 ≤ c.toNat && c.toNat ≤ 70 then some (c.toNat - 65 + 10)
  else none

/-- The table `digits = "0123456789abcdef"` of `net/netip`, indexed by a value below 16. -/
def hexDigit (n : Nat) : Char :=
  if n < 10 then Char.ofNat (48 + n) else Char.ofNat (87 + n)

/-! ## `strings.Split` and `strings.Join` -/

/-- The fragments of `s` between occurrences of the byte `sep`, with `cur` the reversed
fragment being read. -/
def splitAux (sep : Char) : List Char → List Char → List (List Char)
  | [], cur => [cur.reverse]
  | c :: cs, cur =>
    if c = sep then cur.reverse :: splitAux sep cs [] else splitAux sep cs (c :: cur)

/-- Go `strings.Split(s, sep)` for a one-byte separator `sep`: all fragments of `s`
between occurrences of `sep`, in order; the result has one more entry than `s` has
separators. -/
def Split (s : String) (sep : Char) : List String :=
  (splitAux sep s.data []).map String.mk

/-- Go `strings.Join(elems, sep)`. -/
def Join : List String → String → String
  | [], _ => ""
  | [a], _ => a
  | a :: b :: rest, sep => a ++ sep ++ Join (b :: rest) sep

/-! ## `net/netip`: parsing addresses -/

/-- A `netip.Addr` as far as `net.ParseIP` and `net.ParseCIDR` look at it: the sixteen
bytes of `As16`, whether it is an IPv4 address, and the IPv6 zone. -/
structure Addr where
  as16 : List Nat
  is4 : Bool
  zone : String

/-- The prefix `v4InV6Prefix` of an IPv4-mapped IPv6 address. -/
def v4InV6Prefix : List Nat := [0, 0, 0, 0, 0, 0, 0, 0, 0, 0, 255, 255]

/-- Go `Addr.BitLen`. -/
def Addr.BitLen (a : Addr) : Nat := if a.is4 then 32 else 128

/-- The loop of `netip.parseIPv4Fields` over the bytes still to read. `first` says the
byte is the first one, `prevDot` that the byte before it was a dot; `fields` holds the
`pos` octets stored so far. -/
def parseIPv4Loop : List Char → Bool → Bool → Nat → Nat → Nat → List Nat → Option (List Nat)
  | [], _, _, val, pos, _, fields => if pos < 3 then none else some (fields ++ [val])
  | c :: cs, first, prevDot, val, pos, digLen, fields =>
    if isDigit c then
      if digLen = 1 ∧ val = 0 then none
      else
        let val1 := val * 10 + (c.toNat - 48)
        if val1 > 255 then none
        else parseIPv4Loop cs false false val1 pos (digLen + 1) fields
    else if c = '.' then
      if first ∨ cs = [] ∨ prevDot then none
      else if pos = 3 then none
      else parseIPv4Loop cs false true 0 (pos + 1) 0 (fields ++ [val])
    else none

/-- Go `netip.parseIPv4Fields` on the whole of `s`: the four octets, or `none`. -/
def parseIPv4Fields (s : List Char) : Option (List Nat) :=
  parseIPv4Loop s true false 0 0 0 []

/-- Go `netip.parseIPv4`. -/
def parseIPv4 (s : List Char) : Option Addr :=
  match parseIPv4Fields s with
  | none => none
  | some f => some { as16 := v4InV6Prefix ++ f, is4 := true, zone := "" }

/-- The inner loop of `netip.parseIPv6` that reads one group of hex digits: returns the
number of digits `off`, their value `acc` and the unread rest, or `none` on a group of
more than four digits or a value above `0xffff`. -/
def hexGroup : List Char → Nat → Nat → Option (Nat × Nat × List Char)
  | [], off, acc => some (off, acc, [])
  | c :: cs, off, acc =>
    match hexVal c with
    | none => some (off, acc, c :: cs)
    | some d =>
      let acc1 := (acc * 16 + d) % 4294967296
      if off > 3 then none
      else if acc1 > 65535 then none
      else hexGroup cs (off + 1) acc1

/-- What remains to be done once the main loop of `netip.parseIPv6` is left: the whole
string must have been used, and a short address is completed at the ellipsis. `ip` holds
the `i` bytes written, `ellipsis` the position of `::` if there was one. -/
def parseIPv6Finish (s : List Char) (ip : List Nat) (ellipsis : Option Nat) : Option (List Nat) :=
  if s ≠ [] then none
  else if ip.length < 16 then
    match ellipsis with
    | none => none
    | some e => some (ip.take e ++ List.replicate (16 - ip.length) 0 ++ ip.drop e)
  else
    match ellipsis with
    | some _ => none
    | none => some ip

/-- The main loop `for i < 16` of `netip.parseIPv6`; `i` is `ip.length`. Every turn
writes at least two bytes, so eight turns are all the loop can take. -/
def parseIPv6Loop : Nat → List Char → List Nat → Option Nat → Option (List Nat)
  | 0, s, ip, ellipsis => parseIPv6Finish s ip ellipsis
  | fuel + 1, s, ip, ellipsis =>
    if ¬ ip.length < 16 then parseIPv6Finish s ip ellipsis
    else
      match hexGroup s 0 0 with
      | none => none
      | some (off, acc, rest) =>
        if off = 0 then none
        else if rest.head? = some '.' then
          if ellipsis = none ∧ ip.length ≠ 12 then none
          else if ip.length + 4 > 16 then none
          else
            match parseIPv4Fields s with
            | none => none
            | some f => parseIPv6Finish [] (ip ++ f) ellipsis
        else
          let ip1 := ip ++ [acc / 256, acc % 256]
          match rest with
          | [] => parseIPv6Finish [] ip1 ellipsis
          | c :: s1 =>
            if c ≠ ':' then none
            else
              match s1 with
              | [] => none
              | c1 :: s2 =>
                if c1 = ':' then
                  if ellipsis ≠ none then none
                  else
                    match s2 with
                    | [] => parseIPv6Finish [] ip1 (some ip1.length)
                    | _ :: _ => parseIPv6Loop fuel s2 ip1 (some ip1.length)
                else parseIPv6Loop fuel s1 ip1 ellipsis

/-- Go `netip.parseIPv6`. -/
def parseIPv6 (input : List Char) : Option Addr :=
  let s := input.takeWhile (fun c => c ≠ '%')
  let hasZone := input.length ≠ s.length
  let zone := input.drop (s.length + 1)
  if hasZone ∧ zone = [] then none
  else
    let z := if hasZone then String.mk zone else ""
    match s with
    | ':' :: ':' :: [] => some { as16 := List.replicate 16 0, is4 := false, zone := z }
    | ':' :: ':' :: c :: s1 =>
      (parseIPv6Loop 8 (c :: s1) [] (some 0)).map (fun ip => { as16 := ip, is4 := false, zone := z })
    | _ =>
      (parseIPv6Loop 8 s [] none).map (fun ip => { as16 := ip, is4 := false, zone := z })

/-- The scan of Go `netip.ParseAddr` for the first `.`, `:` or `%`, which picks the
parser; `s` is the whole string and `rest` what is still to scan. -/
def parseAddrScan (s : List Char) : List Char → Option Addr
  | [] => none
  | c :: cs =>
    if c = '.' then parseIPv4 s
    else if c = ':' then parseIPv6 s
    else if c = '%' then none
    else parseAddrScan s cs

/-- Go `netip.ParseAddr`. -/
def ParseAddr (s : String) : Option Addr := parseAddrScan s.data s.data

/-! ## `net`: addresses, masks and networks -/

/-- Go `net.IP`: a slice of bytes, four for IPv4 and sixteen for IPv6. -/
abbrev IP := List Nat

/-- Go `net.IPMask`. -/
abbrev IPMask := List Nat

/-- Go `net.IPNet`. -/
structure IPNet where
  IP : IP
  Mask : IPMask
  deriving DecidableEq, Repr

/-- Go `net.ParseError`, returned by `ParseCIDR`; `Kind` is the Go field `Type`. -/
structure ParseError where
  Kind : String
  Text : String
  deriving DecidableEq, Repr

/-- Go `(*ParseError).Error`. -/
def ParseError.Error (e : ParseError) : String := "invalid " ++ e.Kind ++ ": " ++ e.Text

/-- Go `net.ParseIP`: the sixteen-byte form of the address, or `none` (Go `nil`) when `s`
is no IP literal or carries a zone. -/
def ParseIP (s : String) : Option IP :=
  match ParseAddr s with
  | none => none
  | some a => if a.zone ≠ "" then none else some a.as16

/-- Go `IP.To4`: the four-byte form of an IPv4 address, or `none` (Go `nil`). -/
def To4 (ip : IP) : Option IP :=
  if ip.length = 4 then some ip
  else if ip.length = 16 ∧ (ip.take 10).all (fun b => b == 0) ∧ ip.getD 10 0 = 255
      ∧ ip.getD 11 0 = 255 then some (ip.drop 12)
  else none

/-- The loop of Go `net.CIDRMask` that fills `l` mask bytes from `n` leading ones. -/
def cidrMaskLoop : Nat → Nat → List Nat
  | 0, _ => []
  | l + 1, n =>
    if n ≥ 8 then 255 :: cidrMaskLoop l (n - 8)
    else (255 - 255 / 2 ^ n) :: cidrMaskLoop l 0

/-- Go `net.CIDRMask(ones, bits)`; `none` is the `nil` mask. -/
def CIDRMask (ones bits : Nat) : Option IPMask :=
  if bits ≠ 32 ∧ bits ≠ 128 then none
  else if ones > bits then none
  else some (cidrMaskLoop (bits / 8) ones)

/-- Go `IP.Mask`: the address with the mask applied byte by byte, or `none` (Go `nil`)
when the lengths do not fit. -/
def IP.Mask (ip : IP) (mask : IPMask) : Option IP :=
  let mask1 := if mask.length = 16 ∧ ip.length = 4 ∧ (mask.take 12).all (fun b => b == 255)
    then mask.drop 12 else mask
  let ip1 := if mask1.length = 4 ∧ ip.length = 16 ∧ ip.take 12 = v4InV6Prefix
    then ip.drop 12 else ip
  if ip1.length ≠ mask1.length then none
  else some (List.zipWith (fun a b => a &&& b) ip1 mask1)

/-- Go `net.dtoi`: the decimal number at the start of `s`; the loop, with `n` the value
and `i` the number of digits read so far. The result is `(n, i, ok)`. -/
def dtoiLoop : List Char → Nat → Nat → Nat × Nat × Bool
  | [], n, i => if i = 0 then (0, 0, false) else (n, i, true)
  | c :: cs, n, i =>
    if isDigit c then
      let n1 := n * 10 + (c.toNat - 48)
      if n1 ≥ 16777215 then (16777215, i, false) else dtoiLoop cs n1 (i + 1)
    else if i = 0 then (0, 0, false) else (n, i, true)

/-- Go `net.dtoi`. -/
def dtoi (s : List Char) : Nat × Nat × Bool := dtoiLoop s 0 0

/-- Go `net.ParseCIDR`: the address and the network it names, or a `ParseError`. A nil
mask or a nil masked address, which the checks before them exclude, would show as `[]`. -/
def ParseCIDR (s : String) : Except ParseError (IP × IPNet) :=
  let err : ParseError := ParseError.mk "CIDR address" s
  let addr := s.data.takeWhile (fun c => c ≠ '/')
  if addr.length = s.data.length then .error err
  else
    let mask := s.data.drop (addr.length + 1)
    match ParseAddr (String.mk addr) with
    | none => .error err
    | some ipAddr =>
      if ipAddr.zone ≠ "" then .error err
      else
        match dtoi mask with
        | (n, i, ok) =>
          if ¬ ok ∨ i ≠ mask.length ∨ n > ipAddr.BitLen then .error err
          else
            let m := (CIDRMask n ipAddr.BitLen).getD []
            .ok (ipAddr.as16, IPNet.mk ((IP.Mask ipAddr.as16 m).getD []) m)

/-- Go `net.networkNumberAndMask`; `none` stands for the pair `nil, nil`. -/
def networkNumberAndMask (n : IPNet) : Option (IP × IPMask) :=
  let ip? : Option IP :=
    match To4 n.IP with
    | some ip4 => some ip4
    | none => if n.IP.length ≠ 16 then none else some n.IP
  match ip? with
  | none => none
  | some ip =>
    if n.Mask.length = 4 then
      if ip.length ≠ 4 then none else some (ip, n.Mask)
    else if n.Mask.length = 16 then
      if ip.length = 4 then some (ip, n.Mask.drop 12) else some (ip, n.Mask)
    else none

/-- Go `(*IPNet).Contains`: whether the network includes `ip`. -/
def IPNet.Contains (n : IPNet) (ip : TraefikCloudfront.IP) : Bool :=
  let (nn, m) := (networkNumberAndMask n).getD ([], [])
  let ip1 := (To4 ip).getD ip
  if ip1.length ≠ nn.length then false
  else (List.range ip1.length).all
    (fun i => nn.getD i 0 &&& m.getD i 0 == ip1.getD i 0 &&& m.getD i 0)

/-- The inner loop `for v&0x80 != 0` of Go `net.simpleMaskLength`: counts the leading one
bits of the byte `v` and returns the count with what is left of `v`. -/
def leadingOnes : Nat → Nat → Nat → Nat × Nat
  | 0, v, n => (n, v)
  | fuel + 1, v, n => if v &&& 128 ≠ 0 then leadingOnes fuel (v * 2 % 256) (n + 1) else (n, v)

/-- Go `net.simpleMaskLength`: the number of leading ones of a mask made of ones followed
by zeros, or `none` (Go `-1`) for any other mask. `n` counts the ones seen so far. -/
def simpleMaskLengthLoop : List Nat → Nat → Option Nat
  | [], n => some n
  | v :: rest, n =>
    if v = 255 then simpleMaskLengthLoop rest (n + 8)
    else
      match leadingOnes 8 v n with
      | (n1, v1) =>
        if v1 ≠ 0 then none
        else if rest.all (fun b => b == 0) then some n1 else none

/-- Go `net.simpleMaskLength`. -/
def simpleMaskLength (mask : IPMask) : Option Nat := simpleMaskLengthLoop mask 0

/-- Go `netip.appendDecimal`: a byte in decimal. -/
def appendDecimal (x : Nat) : List Char :=
  (if x ≥ 100 then [hexDigit (x / 100)] else [])
    ++ (if x ≥ 10 then [hexDigit (x / 10 % 10)] else [])
    ++ [hexDigit (x % 10)]

/-- Go `netip.appendHex`: a sixteen-bit group in hex without leading zeros. -/
def appendHex (x : Nat) : List Char :=
  (if x ≥ 4096 then [hexDigit (x / 4096)] else [])
    ++ (if x ≥ 256 then [hexDigit (x / 256 % 16)] else [])
    ++ (if x ≥ 16 then [hexDigit (x / 16 % 16)] else [])
    ++ [hexDigit (x % 16)]

/-- Go `net.hexString`: every byte as two hex digits. -/
def hexString (b : List Nat) : List Char :=
  b.flatMap (fun v => [hexDigit (v / 16), hexDigit (v % 16)])

/-- The sixteen-bit group `i` of a sixteen-byte address (Go `Addr.v6u16`). -/
def v6u16 (ip : IP) (i : Nat) : Nat := ip.getD (2 * i) 0 * 256 + ip.getD (2 * i + 1) 0

/-- Length of the run of zero groups of `ip` that starts at group `i` (the inner loop of
the search for the ellipsis in Go `Addr.appendTo6`); `fuel` bounds the groups left. -/
def zeroRun (ip : IP) : Nat → Nat → Nat
  | 0, _ => 0
  | fuel + 1, j => if j < 8 ∧ v6u16 ip j = 0 then 1 + zeroRun ip fuel (j + 1) else 0

/-- The search of Go `Addr.appendTo6` for the longest run of at least two zero groups,
the first such run winning ties: `(zeroStart, zeroEnd)`, both 255 when there is none.
`todo` lists the starting groups still to try. -/
def findZeros (ip : IP) : List Nat → Nat × Nat → Nat × Nat
  | [], best => best
  | i :: todo, (zs, ze) =>
    let l := zeroRun ip 8 i
    if l ≥ 2 ∧ l > ze - zs then findZeros ip todo (i, i + l) else findZeros ip todo (zs, ze)

/-- The printing loop of Go `Addr.appendTo6` from group `i` on. -/
def appendGroups (ip : IP) (zs ze : Nat) : Nat → Nat → List Char
  | 0, _ => []
  | fuel + 1, i =>
    if ¬ i < 8 then []
    else if i = zs then
      if ze ≥ 8 then [':', ':']
      else [':', ':'] ++ appendHex (v6u16 ip ze) ++ appendGroups ip zs ze fuel (ze + 1)
    else
      (if i > 0 then [':'] else []) ++ appendHex (v6u16 ip i) ++ appendGroups ip zs ze fuel (i + 1)

/-- Go `IP.String`. -/
def IP.String (ip : IP) : String :=
  if ip.length = 0 then "<nil>"
  else if ip.length ≠ 4 ∧ ip.length ≠ 16 then String.mk ('?' :: hexString ip)
  else
    match To4 ip with
    | some p4 =>
      String.mk (appendDecimal (p4.getD 0 0) ++ ['.'] ++ appendDecimal (p4.getD 1 0) ++ ['.']
        ++ appendDecimal (p4.getD 2 0) ++ ['.'] ++ appendDecimal (p4.getD 3 0))
    | none =>
      match findZeros ip (List.range 8) (255, 255) with
      | (zs, ze) => String.mk (appendGroups ip zs ze 8 0)

/-- Go `IPMask.String`. -/
def IPMask.String (m : IPMask) : String :=
  if m.length = 0 then "<nil>" else String.mk (hexString m)

/-- Go `uitoa` of package `net`: an unsigned number in decimal. -/
def uitoa (val : Nat) : String := String.mk (Nat.toDigits 10 val)

/-- Go `(*IPNet).String`: the CIDR notation of the network, `"<nil>"` when it has none. -/
def IPNet.String (n : IPNet) : String :=
  match networkNumberAndMask n with
  | none => "<nil>"
  | some (nn, m) =>
    match simpleMaskLength m with
    | none => IP.String nn ++ "/" ++ IPMask.String m
    | some l => IP.String nn ++ "/" ++ uitoa l

/-! ## `net/textproto` and `net/http`: header maps -/

/-- Go `textproto.validHeaderFieldByte`: the bytes allowed in a header name (the token
characters of RFC 7230). -/
def validHeaderFieldByte (c : Char) : Bool :=
  isDigit c || isLower c || isUpper c ||
    [33, 35, 36, 37, 38, 39, 42, 43, 45, 46, 94, 95, 96, 124, 126].contains c.toNat

/-- The second loop of Go `textproto.canonicalMIMEHeaderKey`: upper case for the first
letter and for a letter after a dash, lower case for every other letter. -/
def canonLoop : List Char → Bool → List Char
  | [], _ => []
  | c :: cs, upper =>
    let c1 :=
      if upper && isLower c then Char.ofNat (c.toNat - 32)
      else if !upper && isUpper c then Char.ofNat (c.toNat + 32)
      else c
    c1 :: canonLoop cs (c1 == '-')

/-- Go `textproto.canonicalMIMEHeaderKey`: a key with a byte that is not allowed in a
header name, a space included, comes back as it is. -/
def canonicalMIMEHeaderKey (a : List Char) : List Char :=
  if a.all validHeaderFieldByte then canonLoop a true else a

/-- The quick check at the start of Go `textproto.CanonicalMIMEHeaderKey`: `true` when
the scan reaches a letter in the wrong case before any invalid byte. -/
def needsCanon : List Char → Bool → Bool
  | [], _ => false
  | c :: cs, upper =>
    if !validHeaderFieldByte c then false
    else if upper && isLower c then true
    else if !upper && isUpper c then true
    else needsCanon cs (c == '-')

/-- Go `textproto.CanonicalMIMEHeaderKey` (and `http.CanonicalHeaderKey`). -/
def CanonicalMIMEHeaderKey (s : String) : String :=
  if needsCanon s.data true then String.mk (canonicalMIMEHeaderKey s.data) else s

/-- A run-time panic of the Go program. -/
inductive Panic where
  /-- Assignment to an entry in a nil map. -/
  | nilMap
  /-- Method call through a nil interface value. -/
  | nilHandler
  /-- Index out of range. -/
  | indexOutOfRange
  /-- Slice bounds out of range. -/
  | sliceBounds
  deriving DecidableEq, Repr

/-- Go `http.Header`, a `map[string][]string`: the nil map, or the values stored under
each key. -/
inductive Header where
  | nilMap
  | map (m : String → Option (List String))

/-- Go `Header.Get`: the first value stored under the canonical form of `key`, or `""`. -/
def Header.Get (h : Header) (key : String) : String :=
  match h with
  | .nilMap => ""
  | .map m =>
    match m (CanonicalMIMEHeaderKey key) with
    | none => ""
    | some [] => ""
    | some (v :: _) => v

/-- Go `Header.Set`: the canonical form of `key` now holds the single value `value`.
Writing to the nil map panics. -/
def Header.Set (h : Header) (key value : String) : Except Panic Header :=
  match h with
  | .nilMap => .error .nilMap
  | .map m => .ok (.map (fun k => if k = CanonicalMIMEHeaderKey key then some [value] else m k))

/-- The values stored under exactly the key `k` (Go `h[k]`), `none` when the key is
absent. -/
def Header.values (h : Header) (k : String) : Option (List String) :=
  match h with
  | .nilMap => none
  | .map m => m k

/-- The fields of Go `http.Request` that `ServeHTTP` reads or writes. -/
structure Request where
  RemoteAddr : String
  Header : Header

/-- Go `http.Handler`, of which this code knows nothing but that it can be called. -/
structure Handler where
  id : Nat
  deriving DecidableEq, Repr

/-! ## `cloudfront.go` -/

/-- The request header added by Cloudfront containing the client's IP address. -/
def RemoteAddressHeader : String := "Cloudfront-Viewer-Address"

/-- The plugin configuration. -/
structure Config where
  Headers : List String
  TrustedIPs : List String
  deriving DecidableEq, Repr

/-- The default plugin configuration. -/
def CreateConfig : Config :=
  { Headers := ["X-Forwarded-For", "X-Real-IP"], TrustedIPs := [] }

/-- A Cloudfront plugin. `next` is `none` for a nil handler. -/
structure Cloudfront where
  next : Option Handler
  headers : List String
  trustedIps : List IPNet
  name : String

/-- The loop of `New` over `config.TrustedIPs`, with `trustedIps` the ranges parsed so
far: stops at the first string that is no CIDR and returns the error message. -/
def newLoop : List String → List IPNet → Except String (List IPNet)
  | [], trustedIps => .ok trustedIps
  | ip :: rest, trustedIps =>
    match ParseCIDR ip with
    | .error err => .error ("invalid CIDR " ++ ip ++ ": " ++ err.Error)
    | .ok (_, ipnet) => newLoop rest (trustedIps ++ [ipnet])

/-- New creates a new Cloudfront plugin, or fails with the message of its error. -/
def New (next : Option Handler) (config : Config) (name : String) : Except String Cloudfront :=
  match newLoop config.TrustedIPs [] with
  | .error e => .error e
  | .ok trustedIps =>
    .ok { headers := config.Headers, trustedIps := trustedIps, next := next, name := name }

/-- What `ServeHTTP` does to the world outside it, in program order. -/
inductive Event where
  /-- A call `req.Header.Set(key, value)`. -/
  | set (key value : String)
  /-- The statement `cf.next.ServeHTTP(rw, req)` is executed, with the handler called
  (`none` for nil) and the request as it is at the call. -/
  | serve (next : Option Handler) (req : Request)

/-- The statement of `ServeHTTP` at which a run calls the next handler. -/
inductive Path where
  /-- Line 63: the range set is empty. -/
  | disabled
  /-- Line 71: the peer address is no IP. -/
  | badPeer
  /-- Line 85: the peer is in no range. -/
  | untrusted
  /-- Line 97: the viewer address has fewer than two fragments. -/
  | badViewer
  /-- Line 109: after the headers are set. -/
  | rewritten
  /-- The run panicked before it reached any call of the next handler. -/
  | aborted
  deriving DecidableEq, Repr

/-- A run of `ServeHTTP`: where it called the next handler, the request as `ServeHTTP`
itself left it (what the next handler does to it comes after), its calls in order, and
the panic that ended it, if any. -/
structure Outcome where
  path : Path
  req : Request
  trace : List Event
  panic : Option Panic

/-- The statement `cf.next.ServeHTTP(rw, req)` followed by the return from `ServeHTTP`.
Calling a nil handler panics. -/
def callNext (cf : Cloudfront) (path : Path) (req : Request) (trace : List Event) : Outcome :=
  { path := path, req := req, trace := trace ++ [.serve cf.next req],
    panic := match cf.next with
      | none => some .nilHandler
      | some _ => none }

/-- Lines 77-82: the loop that looks for a range containing `remoteIP`. -/
def trustedLoop : List IPNet → IP → Bool
  | [], _ => false
  | addr :: rest, remoteIP => if addr.Contains remoteIP then true else trustedLoop rest remoteIP

/-- Go `s[0:high]` on a slice whose capacity is its length. -/
def sliceTo {α : Type} (s : List α) (high : Int) : Except Panic (List α) :=
  if 0 ≤ high ∧ high ≤ (s.length : Int) then .ok (s.take high.toNat) else .error .sliceBounds

/-- Lines 95-103: the switch on the number of fragments. `none` is the case `l < 2`,
which returns early; otherwise the value given to `addr`. -/
def viewerAddr (split : List String) : Except Panic (Option String) :=
  if split.length < 2 then .ok none
  else if split.length = 2 then
    match split[0]? with
    | none => .error .indexOutOfRange
    | some a => .ok (some a)
  else
    match sliceTo split ((split.length : Int) - 1) with
    | .error p => .error p
    | .ok front => .ok (some (Join front ":"))

/-- Lines 105-107: the loop that sets every configured header to `addr`. -/
def setHeaders (addr : String) : List String → Request → List Event →
    Request × List Event × Option Panic
  | [], req, trace => (req, trace, none)
  | header :: rest, req, trace =>
    match req.Header.Set header addr with
    | .error p => (req, trace, some p)
    | .ok h => setHeaders addr rest { req with Header := h } (trace ++ [.set header addr])

/-- Lines 90-109: cut the client address out of the viewer address, set the headers,
call the next handler. -/
def rewrite (cf : Cloudfront) (req : Request) : Outcome :=
  let split := Split (req.Header.Get RemoteAddressHeader) ':'
  match viewerAddr split with
  | .error p => { path := .aborted, req := req, trace := [], panic := some p }
  | .ok none => callNext cf .badViewer req []
  | .ok (some addr) =>
    match setHeaders addr cf.headers req [] with
    | (req1, trace, some p) => { path := .aborted, req := req1, trace := trace, panic := some p }
    | (req1, trace, none) => callNext cf .rewritten req1 trace

/-- ServeHTTP processes the request. -/
def ServeHTTP (cf : Cloudfront) (req : Request) : Outcome :=
  if cf.trustedIps.length = 0 then callNext cf .disabled req []
  else
    match cf.trustedIps[0]? with
    | none => { path := .aborted, req := req, trace := [], panic := some .indexOutOfRange }
    | some first =>
      if first.String ≠ "0.0.0.0/0" then
        match ParseIP req.RemoteAddr with
        | none => callNext cf .badPeer req []
        | some remoteIP =>
          if ¬ trustedLoop cf.trustedIps remoteIP then callNext cf .untrusted req []
          else rewrite cf req
      else rewrite cf req

/-! ## Values for the proofs -/

/-- The header map after the loop of lines 105-107 has run over `headers`, starting from
the map `m`: every canonical form of a configured name holds `[addr]`, every other key
what it held in `m`. -/
def afterSet (addr : String) (headers : List String) (m : String → Option (List String)) :
    String → Option (List String) :=
  fun k => if k ∈ headers.map CanonicalMIMEHeaderKey then some [addr] else m k

/-- The header map that the `Header.Set` calls recorded in `events` produce, in order,
from the map `h`; a call of the next handler writes nothing. -/
def replay : List Event → Header → Except Panic Header
  | [], h => .ok h
  | .set key value :: rest, h =>
    match h.Set key value with
    | .error p => .error p
    | .ok h1 => replay rest h1
  | .serve _ _ :: rest, h => replay rest h

/-- The request of `TestCloudfront`: a new request whose peer address is `remoteAddr`
and whose only header is the viewer address. -/
def testRequest (remoteAddr viewerAddress : String) : Request :=
  { RemoteAddr := remoteAddr,
    Header := .map (fun k => if k = RemoteAddressHeader then some [viewerAddress] else none) }

/-- The handler of `TestCloudfront` for the ranges `trustedIps`, as `New` builds it from
the parsed ranges, with the two default header names. -/
def testHandler (next : Option Handler) (trustedIps : List IPNet) : Cloudfront :=
  { next := next, headers := ["X-Forwarded-For", "X-Real-IP"], trustedIps := trustedIps,
    name := "cloudfront" }

/-- The configuration of `TestCloudfront` for the ranges `trustedIPs`. -/
def testConfig (trustedIPs : List String) : Config :=
  { Headers := ["X-Forwarded-For", "X-Real-IP"], TrustedIPs := trustedIPs }

/-- A configuration that trusts every peer and names the viewer-address header itself
among the headers to set. -/
def selfConfig : Config :=
  { Headers := ["X-Forwarded-For", "Cloudfront-Viewer-Address"], TrustedIPs := ["0.0.0.0/0"] }

/-- The network `10.0.0.0/8` as `ParseCIDR` returns it. -/
def net10 : IPNet := IPNet.mk [10, 0, 0, 0] [255, 0, 0, 0]

/-- The network `0.0.0.0/0` as `ParseCIDR` returns it. -/
def netAll : IPNet := IPNet.mk [0, 0, 0, 0] [0, 0, 0, 0]

/-- The handler that `New` builds from `selfConfig`. -/
def selfHandler : Cloudfront :=
  { next := some (Handler.mk 1), headers := ["X-Forwarded-For", "Cloudfront-Viewer-Address"],
    trustedIps := [netAll], name := "cloudfront" }

/-- The network `10::/64` as `ParseCIDR` returns it. -/
def net10v6 : IPNet :=
  IPNet.mk [0, 16, 0, 0, 0, 0, 0, 0, 0, 0, 0, 0, 0, 0, 0, 0]
    [255, 255, 255, 255, 255, 255, 255, 255, 0, 0, 0, 0, 0, 0, 0, 0]

/-- Whether a run went past the trust gate of lines 62-88, that is, took the peer for
trusted: it left by line 97 or by line 109. -/
def Path.pastGate : Path → Bool
  | .badViewer => true
  | .rewritten => true
  | _ => false

/-- A request from peer `10.0.0.1` that carries the viewer address `"1.2.3.4:1585"` and
already holds two values under `X-Forwarded-For`. -/
def presetRequest : Request :=
  { RemoteAddr := "10.0.0.1",
    Header := .map (fun k =>
      if k = RemoteAddressHeader then some ["1.2.3.4:1585"]
      else if k = "X-Forwarded-For" then some ["9.9.9.9", "8.8.8.8"]
      else none) }

/-- A handler for the range `10.0.0.0/8` whose header names hold one name twice, in two
spellings, and the viewer-address header itself. -/
def dupHandler : Cloudfront :=
  { next := some (Handler.mk 1),
    headers := ["X-Forwarded-For", "x-forwarded-for", "Cloudfront-Viewer-Address"],
    trustedIps := [IPNet.mk [10, 0, 0, 0] [255, 0, 0, 0]], name := "cloudfront" }

/-- The network `fd00::/8` as `ParseCIDR` returns it. -/
def netFd : IPNet :=
  IPNet.mk [253, 0, 0, 0, 0, 0, 0, 0, 0, 0, 0, 0, 0, 0, 0, 0]
    [255, 0, 0, 0, 0, 0, 0, 0, 0, 0, 0, 0, 0, 0, 0, 0]

/-- The text of `v` before its last `':'`, read off the string itself: drop from the end
of `v` everything up to and including the first `':'` met. -/
def beforeLastColon (v : String) : String :=
  String.mk ((v.data.reverse.dropWhile (fun c => c ≠ ':')).drop 1).reverse

/-- The text of `v` after its last `':'`: the longest end of `v` without a `':'`. -/
def afterLastColon (v : String) : String :=
  String.mk (v.data.reverse.takeWhile (fun c => c ≠ ':')).reverse

/-- The bytes of `strings.Join(elems, sep)`, on fragments given as lists of bytes. -/
def joinChars : List (List Char) → List Char → List Char
  | [], _ => []
  | [a], _ => a
  | a :: b :: rest, sep => a ++ sep ++ joinChars (b :: rest) sep

/-! ## Lemmas on `strings.Split` -/

theorem splitAux_length (sep : Char) (l cur : List Char) :
    (splitAux sep l cur).length = l.count sep + 1 := by
  induction l generalizing cur with
  | nil => simp [splitAux]
  | cons c cs ih =>
    by_cases h : c = sep
    · subst h
      simp [splitAux, ih]
    · have h2 : ¬ (c == sep) = true := by simpa using h
      simp [splitAux, h, ih, List.count_cons, h2]

theorem Split_length (v : String) (sep : Char) :
    (Split v sep).length = v.data.count sep + 1 := by
  simp [Split, splitAux_length]

theorem splitAux_of_not_mem (sep : Char) (l cur : List Char) (h : sep ∉ l) :
    splitAux sep l cur = [cur.reverse ++ l] := by
  induction l generalizing cur with
  | nil => simp [splitAux]
  | cons c cs ih =>
    have hc : c ≠ sep := fun e => h (by simp [e])
    have hcs : sep ∉ cs := fun e => h (by simp [e])
    simp [splitAux, hc, ih _ hcs]

theorem splitAux_cons_takeWhile (sep : Char) (l cur : List Char) (h : sep ∈ l) :
    splitAux sep l cur
      = (cur.reverse ++ l.takeWhile (fun c => c ≠ sep))
        :: splitAux sep ((l.dropWhile (fun c => c ≠ sep)).drop 1) [] := by
  induction l generalizing cur with
  | nil => simp at h
  | cons c cs ih =>
    by_cases hc : c = sep
    · subst hc
      simp [splitAux, List.takeWhile, List.dropWhile]
    · have hcs : sep ∈ cs := by
        rcases List.mem_cons.1 h with e | e
        · exact absurd e.symm hc
        · exact e
      simp [splitAux, hc, ih _ hcs, List.takeWhile, List.dropWhile]

theorem splitAux_fragment_no_sep (sep : Char) (l cur : List Char) (hcur : sep ∉ cur) :
    ∀ f ∈ splitAux sep l cur, sep ∉ f := by
  induction l generalizing cur with
  | nil =>
    intro f hf
    simp [splitAux] at hf
    subst hf
    simpa using hcur
  | cons c cs ih =>
    intro f hf
    by_cases hc : c = sep
    · subst hc
      simp only [splitAux, if_true, List.mem_cons] at hf
      rcases hf with e | e
      · subst e
        simpa using hcur
      · exact ih [] (by simp) f e
    · simp only [splitAux, hc, if_false] at hf
      refine ih (c :: cur) ?_ f hf
      intro hm
      rcases List.mem_cons.1 hm with e | e
      · exact hc e.symm
      · exact hcur e

theorem count_eq_zero_of_length_lt_two (v : String) (h : (Split v ':').length < 2) :
    ':' ∉ v.data := by
  rw [Split_length] at h
  have h0 : v.data.count ':' = 0 := by omega
  exact List.count_eq_zero.1 h0

theorem Split_of_not_mem (v : String) (h : ':' ∉ v.data) : Split v ':' = [v] := by
  simp [Split, splitAux_of_not_mem _ _ _ h]

/-! ## Lemmas on the switch and on the header loop -/

theorem viewerAddr_short (split : List String) (h : split.length < 2) :
    viewerAddr split = .ok none := by
  simp [viewerAddr, h]

theorem viewerAddr_two (a b : String) : viewerAddr [a, b] = .ok (some a) := by
  simp [viewerAddr]

theorem viewerAddr_long (split : List String) (h : 3 ≤ split.length) :
    viewerAddr split = .ok (some (Join (split.take (split.length - 1)) ":")) := by
  have h1 : ¬ split.length < 2 := by omega
  have h2 : ¬ split.length = 2 := by omega
  have h3 : (0 : Int) ≤ (split.length : Int) - 1 ∧ (split.length : Int) - 1 ≤ (split.length : Int) := by
    omega
  have h4 : ((split.length : Int) - 1).toNat = split.length - 1 := by omega
  simp [viewerAddr, h1, h2, sliceTo, h3, h4]

theorem viewerAddr_total (split : List String) : ∃ r, viewerAddr split = .ok r := by
  by_cases h1 : split.length < 2
  · exact ⟨_, viewerAddr_short split h1⟩
  · by_cases h2 : split.length = 2
    · match split, h2 with
      | [a, b], _ => exact ⟨_, viewerAddr_two a b⟩
    · exact ⟨_, viewerAddr_long split (by omega)⟩

theorem viewerAddr_none_iff (split : List String) :
    viewerAddr split = .ok none ↔ split.length < 2 := by
  constructor
  · intro h
    by_contra hlt
    by_cases h2 : split.length = 2
    · match split, h2 with
      | [a, b], _ => simp [viewerAddr_two] at h
    · rw [viewerAddr_long split (by omega)] at h
      simp at h
  · exact viewerAddr_short split

theorem setHeaders_map (addr : String) (headers : List String) (ra : String)
    (m : String → Option (List String)) (trace : List Event) :
    setHeaders addr headers { RemoteAddr := ra, Header := .map m } trace
      = ({ RemoteAddr := ra, Header := .map (afterSet addr headers m) },
          trace ++ headers.map (fun h => Event.set h addr), none) := by
  induction headers generalizing m trace with
  | nil =>
    have hm : afterSet addr [] m = m := by
      funext k
      simp [afterSet]
    simp [setHeaders, hm]
  | cons h rest ih =>
    simp only [setHeaders, Header.Set]
    rw [ih]
    have hm : afterSet addr rest
        (fun k => if k = CanonicalMIMEHeaderKey h then some [addr] else m k)
        = afterSet addr (h :: rest) m := by
      funext k
      by_cases h1 : k = CanonicalMIMEHeaderKey h
      · simp [afterSet, h1]
      · by_cases h2 : k ∈ rest.map CanonicalMIMEHeaderKey
        · simp [afterSet, h2]
        · simp only [afterSet, h2, h1, List.map_cons, List.mem_cons, if_false, false_or]
    rw [hm]
    simp

theorem afterSet_get (addr : String) (headers : List String)
    (m : String → Option (List String)) (h : String) (hmem : h ∈ headers) :
    (Header.map (afterSet addr headers m)).Get h = addr := by
  have : CanonicalMIMEHeaderKey h ∈ headers.map CanonicalMIMEHeaderKey :=
    List.mem_map_of_mem _ hmem
  simp [Header.Get, afterSet, this]

theorem afterSet_values (addr : String) (headers : List String)
    (m : String → Option (List String)) (h : String) (hmem : h ∈ headers) :
    (Header.map (afterSet addr headers m)).values (CanonicalMIMEHeaderKey h) = some [addr] := by
  have : CanonicalMIMEHeaderKey h ∈ headers.map CanonicalMIMEHeaderKey :=
    List.mem_map_of_mem _ hmem
  simp [Header.values, afterSet, this]

theorem afterSet_other (addr : String) (headers : List String)
    (m : String → Option (List String)) (k : String)
    (hk : ∀ h ∈ headers, CanonicalMIMEHeaderKey h ≠ k) :
    afterSet addr headers m k = m k := by
  have : k ∉ headers.map CanonicalMIMEHeaderKey := by
    intro hm
    rcases List.mem_map.1 hm with ⟨h, hh, e⟩
    exact hk h hh e
  simp [afterSet, this]

theorem afterSet_idem (addr : String) (headers : List String)
    (m : String → Option (List String)) :
    afterSet addr headers (afterSet addr headers m) = afterSet addr headers m := by
  funext k
  by_cases h : k ∈ headers.map CanonicalMIMEHeaderKey <;> simp [afterSet, h]

theorem Get_nilMap (key : String) : Header.nilMap.Get key = "" := rfl

theorem Split_empty : Split "" ':' = [""] := by decide

/-- What lines 90-109 do, by the number of fragments of the viewer address. -/
theorem rewrite_short (cf : Cloudfront) (req : Request)
    (h : (Split (req.Header.Get RemoteAddressHeader) ':').length < 2) :
    rewrite cf req = callNext cf .badViewer req [] := by
  simp [rewrite, viewerAddr_short _ h]

theorem rewrite_some (cf : Cloudfront) (ra : String) (m : String → Option (List String))
    (addr : String)
    (h : viewerAddr (Split ((Header.map m).Get RemoteAddressHeader) ':') = .ok (some addr)) :
    rewrite cf { RemoteAddr := ra, Header := .map m }
      = callNext cf .rewritten { RemoteAddr := ra, Header := .map (afterSet addr cf.headers m) }
          (cf.headers.map (fun h => Event.set h addr)) := by
  simp [rewrite, h, setHeaders_map]

theorem rewrite_nilMap (cf : Cloudfront) (ra : String) :
    rewrite cf { RemoteAddr := ra, Header := .nilMap }
      = callNext cf .badViewer { RemoteAddr := ra, Header := .nilMap } [] := by
  apply rewrite_short
  simp [Get_nilMap, Split_empty]

/-! ## Lemmas on `New` and on the trust gate of `ServeHTTP` -/

theorem New_ok (next : Option Handler) (config : Config) (name : String) (cf : Cloudfront)
    (h : New next config name = .ok cf) :
    cf.next = next ∧ cf.headers = config.Headers ∧ cf.name = name
      ∧ newLoop config.TrustedIPs [] = .ok cf.trustedIps := by
  unfold New at h
  cases hl : newLoop config.TrustedIPs [] with
  | error e => simp [hl] at h
  | ok t =>
    simp only [hl, Except.ok.injEq] at h
    subst h
    simp

theorem newLoop_append (l : List String) (acc r : List IPNet) (h : newLoop l acc = .ok r) :
    ∃ t, r = acc ++ t ∧ t.length = l.length := by
  induction l generalizing acc with
  | nil =>
    simp only [newLoop, Except.ok.injEq] at h
    exact ⟨[], by simp [h]⟩
  | cons s rest ih =>
    unfold newLoop at h
    cases hp : ParseCIDR s with
    | error e => simp [hp] at h
    | ok p =>
      obtain ⟨a, n⟩ := p
      simp only [hp] at h
      obtain ⟨t, ht, hlen⟩ := ih _ h
      exact ⟨n :: t, by simp [ht], by simp [hlen]⟩

theorem newLoop_first (s : String) (rest : List String) (r : List IPNet) (a : IP) (n : IPNet)
    (hp : ParseCIDR s = .ok (a, n)) (h : newLoop (s :: rest) [] = .ok r) :
    ∃ t, r = n :: t := by
  unfold newLoop at h
  simp only [hp] at h
  obtain ⟨t, ht, _⟩ := newLoop_append _ _ _ h
  exact ⟨t, by simpa using ht⟩

theorem trustedLoop_iff (l : List IPNet) (ip : IP) :
    trustedLoop l ip = true ↔ ∃ n ∈ l, n.Contains ip = true := by
  induction l with
  | nil => simp [trustedLoop]
  | cons a rest ih =>
    by_cases h : a.Contains ip = true
    · simp [trustedLoop, h]
    · simp [trustedLoop, h, ih]

theorem ServeHTTP_disabled (cf : Cloudfront) (req : Request) (h : cf.trustedIps = []) :
    ServeHTTP cf req = callNext cf .disabled req [] := by
  simp [ServeHTTP, h]

theorem ServeHTTP_sentinel (cf : Cloudfront) (req : Request) (first : IPNet)
    (h : cf.trustedIps[0]? = some first) (hs : first.String = "0.0.0.0/0") :
    ServeHTTP cf req = rewrite cf req := by
  have hne : ¬ cf.trustedIps.length = 0 := by
    intro h0
    rw [List.length_eq_zero] at h0
    simp [h0] at h
  simp [ServeHTTP, hne, h, hs]

theorem ServeHTTP_badPeer (cf : Cloudfront) (req : Request) (first : IPNet)
    (h : cf.trustedIps[0]? = some first) (hs : first.String ≠ "0.0.0.0/0")
    (hip : ParseIP req.RemoteAddr = none) :
    ServeHTTP cf req = callNext cf .badPeer req [] := by
  have hne : ¬ cf.trustedIps.length = 0 := by
    intro h0
    rw [List.length_eq_zero] at h0
    simp [h0] at h
  simp [ServeHTTP, hne, h, hs, hip]

theorem ServeHTTP_untrusted (cf : Cloudfront) (req : Request) (first : IPNet) (remoteIP : IP)
    (h : cf.trustedIps[0]? = some first) (hs : first.String ≠ "0.0.0.0/0")
    (hip : ParseIP req.RemoteAddr = some remoteIP)
    (ht : trustedLoop cf.trustedIps remoteIP = false) :
    ServeHTTP cf req = callNext cf .untrusted req [] := by
  have hne : ¬ cf.trustedIps.length = 0 := by
    intro h0
    rw [List.length_eq_zero] at h0
    simp [h0] at h
  simp [ServeHTTP, hne, h, hs, hip, ht]

theorem ServeHTTP_trusted (cf : Cloudfront) (req : Request) (first : IPNet) (remoteIP : IP)
    (h : cf.trustedIps[0]? = some first) (hs : first.String ≠ "0.0.0.0/0")
    (hip : ParseIP req.RemoteAddr = some remoteIP)
    (ht : trustedLoop cf.trustedIps remoteIP = true) :
    ServeHTTP cf req = rewrite cf req := by
  have hne : ¬ cf.trustedIps.length = 0 := by
    intro h0
    rw [List.length_eq_zero] at h0
    simp [h0] at h
  simp [ServeHTTP, hne, h, hs, hip, ht]

theorem rewrite_cases (cf : Cloudfront) (req : Request) :
    (rewrite cf req = callNext cf .badViewer req []
        ∧ (Split (req.Header.Get RemoteAddressHeader) ':').length < 2)
      ∨ ∃ addr m, req.Header = .map m
          ∧ viewerAddr (Split (req.Header.Get RemoteAddressHeader) ':') = .ok (some addr)
          ∧ rewrite cf req
            = callNext cf .rewritten
                { RemoteAddr := req.RemoteAddr, Header := .map (afterSet addr cf.headers m) }
                (cf.headers.map (fun h => Event.set h addr)) := by
  obtain ⟨ra, hdr⟩ := req
  cases hdr with
  | nilMap =>
    left
    exact ⟨rewrite_nilMap cf ra, by simp [Get_nilMap, Split_empty]⟩
  | map m =>
    obtain ⟨r, hr⟩ := viewerAddr_total (Split ((Header.map m).Get RemoteAddressHeader) ':')
    cases r with
    | none =>
      left
      have hlt := (viewerAddr_none_iff _).1 hr
      exact ⟨rewrite_short cf _ hlt, hlt⟩
    | some addr =>
      right
      exact ⟨addr, m, rfl, hr, rewrite_some cf ra m addr hr⟩

theorem rewrite_path (cf : Cloudfront) (req : Request) :
    (rewrite cf req).path = .badViewer ∨ (rewrite cf req).path = .rewritten := by
  rcases rewrite_cases cf req with ⟨h, _⟩ | ⟨addr, m, _, _, h⟩
  · left
    rw [h]
    rfl
  · right
    rw [h]
    rfl

theorem rewrite_set (cf : Cloudfront) (req : Request) (addr : String)
    (hv : viewerAddr (Split (req.Header.Get RemoteAddressHeader) ':') = .ok (some addr)) :
    (rewrite cf req).path = .rewritten
      ∧ (rewrite cf req).req.RemoteAddr = req.RemoteAddr
      ∧ (∀ h ∈ cf.headers, (rewrite cf req).req.Header.Get h = addr)
      ∧ (∀ h ∈ cf.headers,
          (rewrite cf req).req.Header.values (CanonicalMIMEHeaderKey h) = some [addr])
      ∧ (∀ k, (∀ h ∈ cf.headers, CanonicalMIMEHeaderKey h ≠ k) →
          (rewrite cf req).req.Header.values k = req.Header.values k) := by
  rcases rewrite_cases cf req with ⟨_, hlt⟩ | ⟨addr1, m, hm, hv1, h⟩
  · rw [viewerAddr_short _ hlt] at hv
    simp at hv
  · rw [hv] at hv1
    simp only [Except.ok.injEq, Option.some.injEq] at hv1
    subst hv1
    rw [h]
    refine ⟨rfl, rfl, ?_, ?_, ?_⟩
    · intro k hk
      exact afterSet_get addr cf.headers m k hk
    · intro k hk
      exact afterSet_values addr cf.headers m k hk
    · intro k hk
      simp only [callNext, Header.values, hm]
      exact afterSet_other addr cf.headers m k hk

theorem newLoop_ten : newLoop ["10.0.0.0/8"] [] = .ok [net10] := by
  rfl

theorem parseIP_ten : ParseIP "10.0.0.1" = some [0, 0, 0, 0, 0, 0, 0, 0, 0, 0, 255, 255, 10, 0, 0, 1] := by
  decide

theorem viewerAddr_scenarioA :
    viewerAddr (Split "1.2.3.4:1585" ':') = .ok (some "1.2.3.4") := by
  rfl

/-- Scenario A of the tests, for every list of header names and every header map that
carries the viewer address. -/
theorem scenarioA (next : Option Handler) (headers : List String) (name : String)
    (cf : Cloudfront) (hdr : Header)
    (hnew : New next { Headers := headers, TrustedIPs := ["10.0.0.0/8"] } name = .ok cf)
    (hv : hdr.Get RemoteAddressHeader = "1.2.3.4:1585") :
    (ServeHTTP cf { RemoteAddr := "10.0.0.1", Header := hdr }).path = .rewritten
      ∧ ∀ h ∈ headers,
        (ServeHTTP cf { RemoteAddr := "10.0.0.1", Header := hdr }).req.Header.Get h = "1.2.3.4" := by
  obtain ⟨_, hh, _, hl⟩ := New_ok _ _ _ _ hnew
  have ht : cf.trustedIps = [net10] := by
    have := newLoop_ten
    simp only [] at hl
    rw [this] at hl
    simpa using hl.symm
  have hfirst : cf.trustedIps[0]? = some net10 := by
    rw [ht]
    rfl
  have hserve := ServeHTTP_trusted cf { RemoteAddr := "10.0.0.1", Header := hdr } _ _ hfirst
    (by decide) parseIP_ten (by rw [ht]; decide)
  rw [hserve]
  have hva : viewerAddr
      (Split ((Request.mk "10.0.0.1" hdr).Header.Get RemoteAddressHeader) ':')
      = .ok (some "1.2.3.4") := by
    simp only [hv]
    exact viewerAddr_scenarioA
  obtain ⟨hp, _, hg, _⟩ := rewrite_set cf _ _ hva
  refine ⟨hp, ?_⟩
  intro h hmem
  exact hg h (by rw [hh]; exact hmem)

/-- C1: for a handler that `New` builds from a non-empty `TrustedIPs` whose first parsed
range does not print as `"0.0.0.0/0"`, and a peer address that parses as the IP
`remoteIP`, `ServeHTTP` goes past its trust gate (it reaches the viewer-address switch,
leaving by line 97 or line 109) if and only if some parsed range contains `remoteIP`, and
leaves by line 85 if and only if none does. In particular with ranges `["10.0.0.0/8"]`,
peer `"10.0.0.1"` and viewer address `"1.2.3.4:1585"` every configured header ends up
equal to `"1.2.3.4"`. -/
theorem serveHTTP_trusted_iff_contained (next : Option Handler) (config : Config)
    (name : String) (cf : Cloudfront) (req : Request) (remoteIP : IP)
    (hnew : New next config name = .ok cf)
    (hne : config.TrustedIPs ≠ [])
    (hs : ∀ first, cf.trustedIps[0]? = some first → first.String ≠ "0.0.0.0/0")
    (hip : ParseIP req.RemoteAddr = some remoteIP) :
    (((ServeHTTP cf req).path = .badViewer ∨ (ServeHTTP cf req).path = .rewritten)
        ↔ ∃ n ∈ cf.trustedIps, n.Contains remoteIP = true)
      ∧ ((ServeHTTP cf req).path = .untrusted
        ↔ ¬ ∃ n ∈ cf.trustedIps, n.Contains remoteIP = true)
      ∧ (∀ (next0 : Option Handler) (headers : List String) (name0 : String)
          (cf0 : Cloudfront) (hdr : Header),
          New next0 { Headers := headers, TrustedIPs := ["10.0.0.0/8"] } name0 = .ok cf0 →
          hdr.Get RemoteAddressHeader = "1.2.3.4:1585" →
          ∀ h ∈ headers,
            (ServeHTTP cf0 { RemoteAddr := "10.0.0.1", Header := hdr }).req.Header.Get h
              = "1.2.3.4") := by
  obtain ⟨_, _, _, hl⟩ := New_ok _ _ _ _ hnew
  obtain ⟨t, ht, hlen⟩ := newLoop_append _ _ _ hl
  have hfirst : ∃ first, cf.trustedIps[0]? = some first := by
    cases hc : cf.trustedIps with
    | nil =>
      rw [hc] at ht
      have : t = [] := by simpa using ht.symm
      rw [this] at hlen
      exact absurd (List.length_eq_zero.1 hlen.symm) hne
    | cons a rest => exact ⟨a, by simp⟩
  obtain ⟨first, hf⟩ := hfirst
  have hsf := hs first hf
  refine ⟨?_, ?_, ?_⟩
  · cases hloop : trustedLoop cf.trustedIps remoteIP with
    | true =>
      rw [ServeHTTP_trusted cf req first remoteIP hf hsf hip hloop]
      constructor
      · intro _
        exact (trustedLoop_iff _ _).1 hloop
      · intro _
        exact rewrite_path cf req
    | false =>
      rw [ServeHTTP_untrusted cf req first remoteIP hf hsf hip hloop]
      constructor
      · intro h
        rcases h with h | h <;> simp [callNext] at h
      · intro h
        rw [← trustedLoop_iff, hloop] at h
        exact absurd h (by simp)
  · cases hloop : trustedLoop cf.trustedIps remoteIP with
    | true =>
      rw [ServeHTTP_trusted cf req first remoteIP hf hsf hip hloop]
      constructor
      · intro h
        rcases rewrite_path cf req with h1 | h1 <;> rw [h1] at h <;> simp at h
      · intro h
        exact absurd ((trustedLoop_iff _ _).1 hloop) h
    | false =>
      rw [ServeHTTP_untrusted cf req first remoteIP hf hsf hip hloop]
      constructor
      · intro _ h
        rw [← trustedLoop_iff, hloop] at h
        exact absurd h (by simp)
      · intro _
        rfl
  · intro next0 headers name0 cf0 hdr hnew0 hv h hmem
    exact (scenarioA next0 headers name0 cf0 hdr hnew0 hv).2 h hmem

theorem serveHTTP_trusted_iff_contained_witness :
    New (some (Handler.mk 1)) (testConfig ["10.0.0.0/8"]) "cloudfront"
        = .ok (testHandler (some (Handler.mk 1)) [net10])
      ∧ ParseIP "10.0.0.1" = some [0, 0, 0, 0, 0, 0, 0, 0, 0, 0, 255, 255, 10, 0, 0, 1]
      ∧ (((ServeHTTP (testHandler (some (Handler.mk 1)) [net10])
              (testRequest "10.0.0.1" "1.2.3.4:1585")).path = .badViewer
            ∨ (ServeHTTP (testHandler (some (Handler.mk 1)) [net10])
              (testRequest "10.0.0.1" "1.2.3.4:1585")).path = .rewritten)
          ↔ ∃ n ∈ (testHandler (some (Handler.mk 1)) [net10]).trustedIps,
              n.Contains [0, 0, 0, 0, 0, 0, 0, 0, 0, 0, 255, 255, 10, 0, 0, 1] = true) :=
  ⟨rfl, parseIP_ten,
    (serveHTTP_trusted_iff_contained (some (Handler.mk 1)) (testConfig ["10.0.0.0/8"])
      "cloudfront" (testHandler (some (Handler.mk 1)) [net10])
      (testRequest "10.0.0.1" "1.2.3.4:1585")
      [0, 0, 0, 0, 0, 0, 0, 0, 0, 0, 255, 255, 10, 0, 0, 1]
      rfl (by decide)
      (by
        intro first h
        have : first = net10 := by simpa [testHandler] using h.symm
        subst this
        decide)
      parseIP_ten).1⟩

theorem parseCIDR_all :
    ParseCIDR "0.0.0.0/0"
      = .ok ([0, 0, 0, 0, 0, 0, 0, 0, 0, 0, 255, 255, 0, 0, 0, 0], netAll) := by
  rfl

theorem netAll_string : netAll.String = "0.0.0.0/0" := by decide

theorem rewrite_peer (cf : Cloudfront) (hdr : Header) (peer1 peer2 : String) :
    (rewrite cf { RemoteAddr := peer1, Header := hdr }).path
        = (rewrite cf { RemoteAddr := peer2, Header := hdr }).path
      ∧ (rewrite cf { RemoteAddr := peer1, Header := hdr }).req.Header
        = (rewrite cf { RemoteAddr := peer2, Header := hdr }).req.Header
      ∧ (rewrite cf { RemoteAddr := peer1, Header := hdr }).panic
        = (rewrite cf { RemoteAddr := peer2, Header := hdr }).panic := by
  cases hdr with
  | nilMap => simp [rewrite_nilMap, callNext]
  | map m =>
    obtain ⟨r, hr⟩ := viewerAddr_total (Split ((Header.map m).Get RemoteAddressHeader) ':')
    cases r with
    | none =>
      have hlt := (viewerAddr_none_iff _).1 hr
      rw [rewrite_short cf { RemoteAddr := peer1, Header := .map m } hlt,
        rewrite_short cf { RemoteAddr := peer2, Header := .map m } hlt]
      simp [callNext]
    | some addr =>
      rw [rewrite_some cf peer1 m addr hr, rewrite_some cf peer2 m addr hr]
      simp [callNext]

theorem viewerAddr_of_colon (v : String) (h : ':' ∈ v.data) :
    ∃ addr, viewerAddr (Split v ':') = .ok (some addr) := by
  obtain ⟨r, hr⟩ := viewerAddr_total (Split v ':')
  cases r with
  | none =>
    exact absurd h (count_eq_zero_of_length_lt_two v ((viewerAddr_none_iff _).1 hr))
  | some addr => exact ⟨addr, hr⟩

/-- C2: for a handler that `New` builds from a `TrustedIPs` list whose first entry is
`"0.0.0.0/0"`, `ServeHTTP` never looks at the peer address: with any other string as
`req.RemoteAddr` (an IPv4 or IPv6 literal, empty, or no IP at all) it leaves by the same
statement, with the same header map and the same panic or none. Whenever the
`Cloudfront-Viewer-Address` value contains a `':'`, the switch yields a client address
`addr`, the run ends at line 109 and every configured header holds `addr`. -/
theorem serveHTTP_sentinel_ignores_peer (next : Option Handler) (config : Config)
    (name : String) (cf : Cloudfront) (req : Request)
    (hnew : New next config name = .ok cf)
    (hfirst : config.TrustedIPs.head? = some "0.0.0.0/0") :
    (∀ peer : String,
        (ServeHTTP cf { req with RemoteAddr := peer }).path = (ServeHTTP cf req).path
          ∧ (ServeHTTP cf { req with RemoteAddr := peer }).req.Header
            = (ServeHTTP cf req).req.Header
          ∧ (ServeHTTP cf { req with RemoteAddr := peer }).panic = (ServeHTTP cf req).panic)
      ∧ (':' ∈ (req.Header.Get RemoteAddressHeader).data →
          ∃ addr, viewerAddr (Split (req.Header.Get RemoteAddressHeader) ':') = .ok (some addr)
            ∧ (ServeHTTP cf req).path = .rewritten
            ∧ ∀ h ∈ config.Headers, (ServeHTTP cf req).req.Header.Get h = addr) := by
  obtain ⟨_, hh, _, hl⟩ := New_ok _ _ _ _ hnew
  have hsent : cf.trustedIps[0]? = some netAll := by
    cases hc : config.TrustedIPs with
    | nil => simp [hc] at hfirst
    | cons s rest =>
      have hs : s = "0.0.0.0/0" := by simpa [hc] using hfirst
      subst hs
      rw [hc] at hl
      obtain ⟨t, ht⟩ := newLoop_first _ rest _ _ _ parseCIDR_all hl
      simp [ht]
  have hall : ∀ r : Request, ServeHTTP cf r = rewrite cf r :=
    fun r => ServeHTTP_sentinel cf r netAll hsent netAll_string
  refine ⟨?_, ?_⟩
  · intro peer
    rw [hall, hall]
    obtain ⟨ra, hdr⟩ := req
    exact rewrite_peer cf hdr peer ra
  · intro hcolon
    obtain ⟨addr, ha⟩ := viewerAddr_of_colon _ hcolon
    obtain ⟨hp, _, hg, _⟩ := rewrite_set cf req addr ha
    rw [hall]
    refine ⟨addr, ha, hp, ?_⟩
    intro h hmem
    exact hg h (by rw [hh]; exact hmem)

theorem serveHTTP_sentinel_ignores_peer_witness :
    New (some (Handler.mk 1)) (testConfig ["0.0.0.0/0"]) "cloudfront"
        = .ok (testHandler (some (Handler.mk 1)) [netAll])
      ∧ (testConfig ["0.0.0.0/0"]).TrustedIPs.head? = some "0.0.0.0/0"
      ∧ (ServeHTTP (testHandler (some (Handler.mk 1)) [netAll])
            { testRequest "10.0.0.1" "1.2.3.4:1585" with RemoteAddr := "not an IP" }).req.Header
          = (ServeHTTP (testHandler (some (Handler.mk 1)) [netAll])
              (testRequest "10.0.0.1" "1.2.3.4:1585")).req.Header
      ∧ (ServeHTTP (testHandler (some (Handler.mk 1)) [netAll])
          (testRequest "10.0.0.1" "1.2.3.4:1585")).req.Header.Get "X-Forwarded-For" = "1.2.3.4"
      ∧ (ServeHTTP (testHandler (some (Handler.mk 1)) [netAll])
          (testRequest "not an IP" "1.2.3.4:1585")).req.Header.Get "X-Real-IP" = "1.2.3.4" :=
  ⟨rfl, rfl,
    ((serveHTTP_sentinel_ignores_peer (some (Handler.mk 1)) (testConfig ["0.0.0.0/0"])
      "cloudfront" (testHandler (some (Handler.mk 1)) [netAll])
      (testRequest "10.0.0.1" "1.2.3.4:1585") rfl rfl).1 "not an IP").2.1,
    by decide, by decide⟩

/-- C3, as stated, fails: the configuration `["1.2.3.4/0"]` is valid, its first string is
not the text `"0.0.0.0/0"`, and the peer address `"garbage"` is no IP literal; yet the
range parses to the network that prints as `"0.0.0.0/0"`, so `ServeHTTP` takes it for the
trust-all sentinel and sets `X-Real-IP`, empty before, to `"1.2.3.4"`. -/
theorem first_string_not_sentinel_counterexample :
    New none (testConfig ["1.2.3.4/0"]) "cloudfront" = .ok (testHandler none [netAll])
      ∧ (testConfig ["1.2.3.4/0"]).TrustedIPs.head? ≠ some "0.0.0.0/0"
      ∧ ParseIP "garbage" = none
      ∧ (testRequest "garbage" "1.2.3.4:1585").Header.Get "X-Real-IP" = ""
      ∧ (ServeHTTP (testHandler none [netAll]) (testRequest "garbage" "1.2.3.4:1585")).path
          = .rewritten
      ∧ (ServeHTTP (testHandler none [netAll])
          (testRequest "garbage" "1.2.3.4:1585")).req.Header.Get "X-Real-IP" = "1.2.3.4" := by
  refine ⟨rfl, by decide, by decide, by decide, by decide, by decide⟩

/-- C3, amended: when the first parsed range does not print as `"0.0.0.0/0"` (as for
`["10.0.0.0/8", "0.0.0.0/0"]`) and the peer address does not parse as an IP literal,
`ServeHTTP` leaves by line 71: the peer is not trusted, no header is set, and the
request goes to the next handler as it came, whatever the viewer address holds. -/
theorem serveHTTP_unparseable_peer (cf : Cloudfront) (req : Request) (first : IPNet)
    (hf : cf.trustedIps[0]? = some first) (hs : first.String ≠ "0.0.0.0/0")
    (hip : ParseIP req.RemoteAddr = none) :
    (ServeHTTP cf req).path = .badPeer
      ∧ (ServeHTTP cf req).req = req
      ∧ (ServeHTTP cf req).trace = [.serve cf.next req] := by
  rw [ServeHTTP_badPeer cf req first hf hs hip]
  exact ⟨rfl, rfl, rfl⟩

theorem serveHTTP_unparseable_peer_witness :
    New (some (Handler.mk 1)) (testConfig ["10.0.0.0/8", "0.0.0.0/0"]) "cloudfront"
        = .ok (testHandler (some (Handler.mk 1)) [net10, netAll])
      ∧ net10.String ≠ "0.0.0.0/0"
      ∧ ParseIP "10.0.0.1:443" = none
      ∧ (ServeHTTP (testHandler (some (Handler.mk 1)) [net10, netAll])
          (testRequest "10.0.0.1:443" "1.2.3.4:1585")).req
          = testRequest "10.0.0.1:443" "1.2.3.4:1585" :=
  ⟨rfl, by decide, by decide,
    (serveHTTP_unparseable_peer (testHandler (some (Handler.mk 1)) [net10, netAll])
      (testRequest "10.0.0.1:443" "1.2.3.4:1585") net10 rfl (by decide) (by decide)).2.1⟩

/-- C4: for a handler that `New` builds from an empty `TrustedIPs` list and for every
request (any peer address, any header map, nil included, any viewer address),
`ServeHTTP` leaves by line 63: it sets no header, the request, and so its whole header
map, is exactly as it came, and its one effect is the call of the next handler with
that request. -/
theorem serveHTTP_disabled_passes_through (next : Option Handler) (config : Config)
    (name : String) (cf : Cloudfront) (req : Request)
    (hnew : New next config name = .ok cf) (hempty : config.TrustedIPs = []) :
    (ServeHTTP cf req).path = .disabled
      ∧ (ServeHTTP cf req).req = req
      ∧ (ServeHTTP cf req).req.Header = req.Header
      ∧ (ServeHTTP cf req).trace = [.serve next req] := by
  obtain ⟨hn, _, _, hl⟩ := New_ok _ _ _ _ hnew
  have ht : cf.trustedIps = [] := by
    rw [hempty] at hl
    simp only [newLoop, Except.ok.injEq] at hl
    exact hl.symm
  rw [ServeHTTP_disabled cf req ht]
  refine ⟨rfl, rfl, rfl, ?_⟩
  simp [callNext, hn]

theorem serveHTTP_disabled_passes_through_witness :
    New (some (Handler.mk 1)) CreateConfig "cloudfront" = .ok (testHandler (some (Handler.mk 1)) [])
      ∧ CreateConfig.TrustedIPs = []
      ∧ (ServeHTTP (testHandler (some (Handler.mk 1)) [])
          (testRequest "10.0.0.1" "1.2.3.4:1585")).trace
          = [.serve (some (Handler.mk 1)) (testRequest "10.0.0.1" "1.2.3.4:1585")] :=
  ⟨rfl, rfl,
    (serveHTTP_disabled_passes_through (some (Handler.mk 1)) CreateConfig "cloudfront"
      (testHandler (some (Handler.mk 1)) []) (testRequest "10.0.0.1" "1.2.3.4:1585")
      rfl rfl).2.2.2⟩

theorem net10_string : net10.String ≠ "0.0.0.0/0" := by decide

theorem parseIP_hundred :
    ParseIP "100.0.0.1" = some [0, 0, 0, 0, 0, 0, 0, 0, 0, 0, 255, 255, 100, 0, 0, 1] := by
  decide

theorem parseIP_eleven_v6 :
    ParseIP "11::ffff:ffff:ffff:fffe"
      = some [0, 17, 0, 0, 0, 0, 0, 0, 255, 255, 255, 255, 255, 255, 255, 254] := by
  decide

theorem net10v6_string : net10v6.String ≠ "0.0.0.0/0" := by decide

theorem newLoop_ten_v6 : newLoop ["10::0/64"] [] = .ok [net10v6] := by
  rfl

/-- C5: for a handler with a non-empty range set whose first range does not print as
`"0.0.0.0/0"` and a peer address that parses as an IP lying in none of the ranges,
`ServeHTTP` leaves by line 85 with the request, and so the whole header map, as it
came: every header keeps its values or its absence. So it is for the ranges
`["10.0.0.0/8"]` with peer `"100.0.0.1"` and for `["10::0/64"]` with peer
`"11::ffff:ffff:ffff:fffe"`, whatever the configured names and the header map, where
`X-Forwarded-For` and `X-Real-IP`, empty before, stay empty. -/
theorem serveHTTP_untrusted_unchanged (cf : Cloudfront) (req : Request) (first : IPNet)
    (remoteIP : IP)
    (hf : cf.trustedIps[0]? = some first) (hs : first.String ≠ "0.0.0.0/0")
    (hip : ParseIP req.RemoteAddr = some remoteIP)
    (hout : ∀ n ∈ cf.trustedIps, n.Contains remoteIP = false) :
    ((ServeHTTP cf req).path = .untrusted
        ∧ (ServeHTTP cf req).req = req
        ∧ (ServeHTTP cf req).req.Header = req.Header
        ∧ (ServeHTTP cf req).trace = [.serve cf.next req])
      ∧ (∀ (next0 : Option Handler) (headers : List String) (name0 : String)
          (cf0 : Cloudfront) (hdr : Header),
          New next0 { Headers := headers, TrustedIPs := ["10.0.0.0/8"] } name0 = .ok cf0 →
          (ServeHTTP cf0 { RemoteAddr := "100.0.0.1", Header := hdr }).req.Header = hdr)
      ∧ (∀ (next0 : Option Handler) (headers : List String) (name0 : String)
          (cf0 : Cloudfront) (hdr : Header),
          New next0 { Headers := headers, TrustedIPs := ["10::0/64"] } name0 = .ok cf0 →
          (ServeHTTP cf0 { RemoteAddr := "11::ffff:ffff:ffff:fffe", Header := hdr }).req.Header
            = hdr) := by
  refine ⟨?_, ?_, ?_⟩
  · have hl : trustedLoop cf.trustedIps remoteIP = false := by
      cases h : trustedLoop cf.trustedIps remoteIP with
      | false => rfl
      | true =>
        obtain ⟨n, hn, hc⟩ := (trustedLoop_iff _ _).1 h
        rw [hout n hn] at hc
        exact absurd hc (by simp)
    rw [ServeHTTP_untrusted cf req first remoteIP hf hs hip hl]
    exact ⟨rfl, rfl, rfl, rfl⟩
  · intro next0 headers name0 cf0 hdr hnew
    obtain ⟨_, _, _, hl⟩ := New_ok _ _ _ _ hnew
    have ht : cf0.trustedIps = [net10] := by
      simp only [] at hl
      rw [newLoop_ten] at hl
      simpa using hl.symm
    rw [ServeHTTP_untrusted cf0 _ net10
      [0, 0, 0, 0, 0, 0, 0, 0, 0, 0, 255, 255, 100, 0, 0, 1] (by rw [ht]; rfl) net10_string
      parseIP_hundred (by rw [ht]; decide)]
    rfl
  · intro next0 headers name0 cf0 hdr hnew
    obtain ⟨_, _, _, hl⟩ := New_ok _ _ _ _ hnew
    have ht : cf0.trustedIps = [net10v6] := by
      simp only [] at hl
      rw [newLoop_ten_v6] at hl
      simpa using hl.symm
    rw [ServeHTTP_untrusted cf0 _ net10v6
      [0, 17, 0, 0, 0, 0, 0, 0, 255, 255, 255, 255, 255, 255, 255, 254] (by rw [ht]; rfl)
      net10v6_string parseIP_eleven_v6 (by rw [ht]; decide)]
    rfl

theorem serveHTTP_untrusted_unchanged_witness :
    ParseIP "100.0.0.1" = some [0, 0, 0, 0, 0, 0, 0, 0, 0, 0, 255, 255, 100, 0, 0, 1]
      ∧ net10.Contains [0, 0, 0, 0, 0, 0, 0, 0, 0, 0, 255, 255, 100, 0, 0, 1] = false
      ∧ (ServeHTTP (testHandler (some (Handler.mk 1)) [net10])
            (testRequest "100.0.0.1" "1.2.3.4:1585")).path = .untrusted
      ∧ (ServeHTTP (testHandler (some (Handler.mk 1)) [net10])
            (testRequest "100.0.0.1" "1.2.3.4:1585")).req
          = testRequest "100.0.0.1" "1.2.3.4:1585" :=
  ⟨by decide, by decide,
    (serveHTTP_untrusted_unchanged (testHandler (some (Handler.mk 1)) [net10])
      (testRequest "100.0.0.1" "1.2.3.4:1585") net10
      [0, 0, 0, 0, 0, 0, 0, 0, 0, 0, 255, 255, 100, 0, 0, 1] rfl net10_string (by decide)
      (by
        intro n hn
        have : n = net10 := by simpa [testHandler] using hn
        subst this
        decide)).1.1,
    (serveHTTP_untrusted_unchanged (testHandler (some (Handler.mk 1)) [net10])
      (testRequest "100.0.0.1" "1.2.3.4:1585") net10
      [0, 0, 0, 0, 0, 0, 0, 0, 0, 0, 255, 255, 100, 0, 0, 1] rfl net10_string (by decide)
      (by
        intro n hn
        have : n = net10 := by simpa [testHandler] using hn
        subst this
        decide)).1.2.1⟩

theorem ServeHTTP_cases (cf : Cloudfront) (req : Request) :
    ServeHTTP cf req = callNext cf .disabled req []
      ∨ ServeHTTP cf req = callNext cf .badPeer req []
      ∨ ServeHTTP cf req = callNext cf .untrusted req []
      ∨ ServeHTTP cf req = rewrite cf req := by
  cases hc : cf.trustedIps with
  | nil => exact Or.inl (ServeHTTP_disabled cf req hc)
  | cons first rest =>
    have hf : cf.trustedIps[0]? = some first := by simp [hc]
    by_cases hs : first.String = "0.0.0.0/0"
    · exact Or.inr (Or.inr (Or.inr (ServeHTTP_sentinel cf req first hf hs)))
    · cases hip : ParseIP req.RemoteAddr with
      | none => exact Or.inr (Or.inl (ServeHTTP_badPeer cf req first hf hs hip))
      | some remoteIP =>
        cases hl : trustedLoop cf.trustedIps remoteIP with
        | false =>
          exact Or.inr (Or.inr (Or.inl (ServeHTTP_untrusted cf req first remoteIP hf hs hip hl)))
        | true =>
          exact Or.inr (Or.inr (Or.inr (ServeHTTP_trusted cf req first remoteIP hf hs hip hl)))

theorem ServeHTTP_eq_rewrite_of_path (cf : Cloudfront) (req : Request)
    (h : (ServeHTTP cf req).path = .rewritten ∨ (ServeHTTP cf req).path = .badViewer) :
    ServeHTTP cf req = rewrite cf req := by
  rcases ServeHTTP_cases cf req with h1 | h1 | h1 | h1
  · rw [h1] at h
    simp [callNext] at h
  · rw [h1] at h
    simp [callNext] at h
  · rw [h1] at h
    simp [callNext] at h
  · exact h1

/-- C6: when the viewer-address value splits on `':'` into `N ≥ 3` fragments, the switch
of lines 95-103 yields the first `N - 1` fragments rejoined with `':'`: the last fragment
is dropped and nothing else is altered. A run of `ServeHTTP` on such a request never
leaves by line 97, and when it sets the headers (it leaves by line 109) every configured
header holds that value. So `"1:2:3:4:5:6:7:8:9:4242"` gives `"1:2:3:4:5:6:7:8:9"`, and
`"1::9:4242"` gives `"1::9"`, the empty fragment kept. -/
theorem viewerAddr_drops_last_fragment (cf : Cloudfront) (req : Request)
    (hN : 3 ≤ (Split (req.Header.Get RemoteAddressHeader) ':').length) :
    viewerAddr (Split (req.Header.Get RemoteAddressHeader) ':')
        = .ok (some (Join ((Split (req.Header.Get RemoteAddressHeader) ':').take
            ((Split (req.Header.Get RemoteAddressHeader) ':').length - 1)) ":"))
      ∧ (ServeHTTP cf req).path ≠ .badViewer
      ∧ ((ServeHTTP cf req).path = .rewritten →
          ∀ h ∈ cf.headers, (ServeHTTP cf req).req.Header.Get h
            = Join ((Split (req.Header.Get RemoteAddressHeader) ':').take
                ((Split (req.Header.Get RemoteAddressHeader) ':').length - 1)) ":")
      ∧ Split "1:2:3:4:5:6:7:8:9:4242" ':' = ["1", "2", "3", "4", "5", "6", "7", "8", "9", "4242"]
      ∧ viewerAddr (Split "1:2:3:4:5:6:7:8:9:4242" ':') = .ok (some "1:2:3:4:5:6:7:8:9")
      ∧ Split "1::9:4242" ':' = ["1", "", "9", "4242"]
      ∧ viewerAddr (Split "1::9:4242" ':') = .ok (some "1::9") := by
  have hv := viewerAddr_long _ hN
  obtain ⟨hp, _, hg, _⟩ := rewrite_set cf req _ hv
  refine ⟨hv, ?_, ?_, by decide, rfl, by decide, rfl⟩
  · intro hb
    have he := ServeHTTP_eq_rewrite_of_path cf req (Or.inr hb)
    rw [he, hp] at hb
    exact absurd hb (by decide)
  · intro hr h hmem
    have he := ServeHTTP_eq_rewrite_of_path cf req (Or.inl hr)
    rw [he]
    exact hg h hmem

theorem viewerAddr_drops_last_fragment_witness :
    3 ≤ (Split ((testRequest "10.0.0.1" "1::9:4242").Header.Get RemoteAddressHeader) ':').length
      ∧ (ServeHTTP (testHandler (some (Handler.mk 1)) [net10])
          (testRequest "10.0.0.1" "1::9:4242")).path = .rewritten
      ∧ ∀ h ∈ (testHandler (some (Handler.mk 1)) [net10]).headers,
          (ServeHTTP (testHandler (some (Handler.mk 1)) [net10])
            (testRequest "10.0.0.1" "1::9:4242")).req.Header.Get h
          = Join ((Split ((testRequest "10.0.0.1" "1::9:4242").Header.Get
                RemoteAddressHeader) ':').take
              ((Split ((testRequest "10.0.0.1" "1::9:4242").Header.Get
                RemoteAddressHeader) ':').length - 1)) ":" :=
  ⟨by decide, by decide,
    (viewerAddr_drops_last_fragment (testHandler (some (Handler.mk 1)) [net10])
      (testRequest "10.0.0.1" "1::9:4242") (by decide)).2.2.1 (by decide)⟩

theorem splitAux_one_sep (sep : Char) (l : List Char) (h : l.count sep = 1) :
    splitAux sep l []
      = [l.takeWhile (fun c => c ≠ sep), (l.dropWhile (fun c => c ≠ sep)).drop 1] := by
  have hmem : sep ∈ l := by
    apply List.count_pos_iff.1
    omega
  have hcut := splitAux_cons_takeWhile sep l [] hmem
  have hlen := splitAux_length sep l []
  rw [hcut, h] at hlen
  simp only [List.length_cons, Nat.add_right_cancel_iff] at hlen
  rw [splitAux_length] at hlen
  have hrest : sep ∉ (l.dropWhile (fun c => c ≠ sep)).drop 1 := by
    apply List.count_eq_zero.1
    omega
  rw [hcut, splitAux_of_not_mem _ _ _ hrest]
  simp

/-- C7: when the viewer-address value contains exactly one `':'`, it splits into the
text before the colon and the text after it, and the switch yields the text before the
colon as it is, checked against nothing. A run of `ServeHTTP` on such a request never
leaves by line 97, and when it sets the headers every configured header holds that
text. So `"1.2.3.4:1585"` gives `"1.2.3.4"`, `"foo:bar"` gives `"foo"`, which is no IP,
and `":"` gives the empty string. -/
theorem viewerAddr_one_colon (cf : Cloudfront) (req : Request)
    (h1 : (req.Header.Get RemoteAddressHeader).data.count ':' = 1) :
    Split (req.Header.Get RemoteAddressHeader) ':'
        = [String.mk ((req.Header.Get RemoteAddressHeader).data.takeWhile (fun c => c ≠ ':')),
            String.mk (((req.Header.Get RemoteAddressHeader).data.dropWhile
              (fun c => c ≠ ':')).drop 1)]
      ∧ viewerAddr (Split (req.Header.Get RemoteAddressHeader) ':')
        = .ok (some (String.mk
            ((req.Header.Get RemoteAddressHeader).data.takeWhile (fun c => c ≠ ':'))))
      ∧ (ServeHTTP cf req).path ≠ .badViewer
      ∧ ((ServeHTTP cf req).path = .rewritten →
          ∀ h ∈ cf.headers, (ServeHTTP cf req).req.Header.Get h
            = String.mk ((req.Header.Get RemoteAddressHeader).data.takeWhile
                (fun c => c ≠ ':')))
      ∧ viewerAddr (Split "1.2.3.4:1585" ':') = .ok (some "1.2.3.4")
      ∧ viewerAddr (Split "foo:bar" ':') = .ok (some "foo")
      ∧ ParseIP "foo" = none
      ∧ viewerAddr (Split ":" ':') = .ok (some "") := by
  have hs : Split (req.Header.Get RemoteAddressHeader) ':'
      = [String.mk ((req.Header.Get RemoteAddressHeader).data.takeWhile (fun c => c ≠ ':')),
          String.mk (((req.Header.Get RemoteAddressHeader).data.dropWhile
            (fun c => c ≠ ':')).drop 1)] := by
    simp only [Split, splitAux_one_sep _ _ h1, List.map_cons, List.map_nil]
  have hv : viewerAddr (Split (req.Header.Get RemoteAddressHeader) ':')
      = .ok (some (String.mk
          ((req.Header.Get RemoteAddressHeader).data.takeWhile (fun c => c ≠ ':')))) := by
    rw [hs]
    exact viewerAddr_two _ _
  obtain ⟨hp, _, hg, _⟩ := rewrite_set cf req _ hv
  refine ⟨hs, hv, ?_, ?_, rfl, rfl, by decide, rfl⟩
  · intro hb
    have he := ServeHTTP_eq_rewrite_of_path cf req (Or.inr hb)
    rw [he, hp] at hb
    exact absurd hb (by decide)
  · intro hr h hmem
    have he := ServeHTTP_eq_rewrite_of_path cf req (Or.inl hr)
    rw [he]
    exact hg h hmem

theorem viewerAddr_one_colon_witness :
    ((testRequest "10.0.0.1" ":").Header.Get RemoteAddressHeader).data.count ':' = 1
      ∧ (ServeHTTP (testHandler (some (Handler.mk 1)) [netAll])
          (testRequest "10.0.0.1" ":")).path = .rewritten
      ∧ (ServeHTTP (testHandler (some (Handler.mk 1)) [netAll])
          (testRequest "10.0.0.1" ":")).req.Header.values "X-Real-Ip" = some [""]
      ∧ ∀ h ∈ (testHandler (some (Handler.mk 1)) [netAll]).headers,
          (ServeHTTP (testHandler (some (Handler.mk 1)) [netAll])
            (testRequest "10.0.0.1" ":")).req.Header.Get h
          = String.mk (((testRequest "10.0.0.1" ":").Header.Get RemoteAddressHeader).data.takeWhile
              (fun c => c ≠ ':')) :=
  ⟨by decide, by decide, by decide,
    (viewerAddr_one_colon (testHandler (some (Handler.mk 1)) [netAll])
      (testRequest "10.0.0.1" ":") (by decide)).2.2.2.1 (by decide)⟩

/-- C8: the switch of lines 95-103 takes its early return exactly when the
viewer-address value contains no `':'`; the empty string and an absent header (in a map
without the key, or in the nil map) are such values, both splitting into one fragment.
In that case `ServeHTTP`, for any handler (trusted peer or not, sentinel or not), sets no
header: the request is as it came and the only effect is the call of the next
handler. -/
theorem viewerAddr_fails_iff_no_colon (cf : Cloudfront) (req : Request) :
    (viewerAddr (Split (req.Header.Get RemoteAddressHeader) ':') = .ok none
        ↔ ':' ∉ (req.Header.Get RemoteAddressHeader).data)
      ∧ (':' ∉ (req.Header.Get RemoteAddressHeader).data →
          (ServeHTTP cf req).req = req
            ∧ (ServeHTTP cf req).req.Header = req.Header
            ∧ (ServeHTTP cf req).trace = [.serve cf.next req]
            ∧ (ServeHTTP cf req).path ≠ .rewritten)
      ∧ Split "" ':' = [""]
      ∧ (∀ m : String → Option (List String), m RemoteAddressHeader = none →
          (Header.map m).Get RemoteAddressHeader = "")
      ∧ Header.nilMap.Get RemoteAddressHeader = "" := by
  refine ⟨?_, ?_, Split_empty, ?_, rfl⟩
  · rw [viewerAddr_none_iff]
    constructor
    · exact count_eq_zero_of_length_lt_two _
    · intro h
      rw [Split_of_not_mem _ h]
      simp
  · intro h
    have hlt : (Split (req.Header.Get RemoteAddressHeader) ':').length < 2 := by
      rw [Split_of_not_mem _ h]
      simp
    have hr := rewrite_short cf req hlt
    rcases ServeHTTP_cases cf req with h1 | h1 | h1 | h1
    · rw [h1]
      exact ⟨rfl, rfl, rfl, by simp [callNext]⟩
    · rw [h1]
      exact ⟨rfl, rfl, rfl, by simp [callNext]⟩
    · rw [h1]
      exact ⟨rfl, rfl, rfl, by simp [callNext]⟩
    · rw [h1, hr]
      exact ⟨rfl, rfl, rfl, by simp [callNext]⟩
  · intro m hm
    have hc : CanonicalMIMEHeaderKey RemoteAddressHeader = RemoteAddressHeader := by decide
    simp [Header.Get, hc, hm]

theorem viewerAddr_fails_iff_no_colon_witness :
    ':' ∉ ((testRequest "10.0.0.1" "1.2.3.4").Header.Get RemoteAddressHeader).data
      ∧ (ServeHTTP (testHandler (some (Handler.mk 1)) [net10])
          (testRequest "10.0.0.1" "1.2.3.4")).req = testRequest "10.0.0.1" "1.2.3.4"
      ∧ (ServeHTTP (testHandler (some (Handler.mk 1)) [net10])
          (testRequest "10.0.0.1" "1.2.3.4")).path = .badViewer
      ∧ (ServeHTTP (testHandler (some (Handler.mk 1)) [netAll])
          (testRequest "10.0.0.1" "")).path = .badViewer :=
  ⟨by decide,
    ((viewerAddr_fails_iff_no_colon (testHandler (some (Handler.mk 1)) [net10])
      (testRequest "10.0.0.1" "1.2.3.4")).2.1 (by decide)).1,
    by decide, by decide⟩

theorem ServeHTTP_cases_peer (cf : Cloudfront) (req req1 : Request)
    (hpeer : req1.RemoteAddr = req.RemoteAddr) :
    (∃ p, ServeHTTP cf req = callNext cf p req [] ∧ ServeHTTP cf req1 = callNext cf p req1 [])
      ∨ (ServeHTTP cf req = rewrite cf req ∧ ServeHTTP cf req1 = rewrite cf req1) := by
  cases hc : cf.trustedIps with
  | nil =>
    exact Or.inl ⟨.disabled, ServeHTTP_disabled cf req hc, ServeHTTP_disabled cf req1 hc⟩
  | cons first rest =>
    have hf : cf.trustedIps[0]? = some first := by simp [hc]
    by_cases hs : first.String = "0.0.0.0/0"
    · exact Or.inr ⟨ServeHTTP_sentinel cf req first hf hs, ServeHTTP_sentinel cf req1 first hf hs⟩
    · cases hip : ParseIP req.RemoteAddr with
      | none =>
        exact Or.inl ⟨.badPeer, ServeHTTP_badPeer cf req first hf hs hip,
          ServeHTTP_badPeer cf req1 first hf hs (by rw [hpeer]; exact hip)⟩
      | some remoteIP =>
        cases hl : trustedLoop cf.trustedIps remoteIP with
        | false =>
          exact Or.inl ⟨.untrusted, ServeHTTP_untrusted cf req first remoteIP hf hs hip hl,
            ServeHTTP_untrusted cf req1 first remoteIP hf hs (by rw [hpeer]; exact hip) hl⟩
        | true =>
          exact Or.inr ⟨ServeHTTP_trusted cf req first remoteIP hf hs hip hl,
            ServeHTTP_trusted cf req1 first remoteIP hf hs (by rw [hpeer]; exact hip) hl⟩

theorem canonical_viewer_header :
    CanonicalMIMEHeaderKey RemoteAddressHeader = RemoteAddressHeader := by decide

theorem not_mem_takeWhile_ne (sep : Char) (l : List Char) :
    sep ∉ l.takeWhile (fun c => c ≠ sep) := by
  intro h
  have hp := List.mem_takeWhile_imp h
  simp at hp

/-- Running lines 90-109 again on the request they produced changes nothing, when the
viewer address is not itself rewritten or has a single colon. -/
theorem rewrite_twice (cf : Cloudfront) (req : Request)
    (hcond : (∀ h ∈ cf.headers, CanonicalMIMEHeaderKey h ≠ RemoteAddressHeader)
      ∨ (req.Header.Get RemoteAddressHeader).data.count ':' ≤ 1) :
    (rewrite cf (rewrite cf req).req).req = (rewrite cf req).req := by
  rcases rewrite_cases cf req with ⟨h, _⟩ | ⟨addr, m, hm, hv, h⟩
  · have h2 : (rewrite cf req).req = req := by
      rw [h]
      rfl
    rw [h2, h2]
  · obtain ⟨ra, hdr⟩ := req
    simp only at hm
    subst hm
    have h2 : (rewrite cf { RemoteAddr := ra, Header := .map m }).req
        = { RemoteAddr := ra, Header := .map (afterSet addr cf.headers m) } := by
      rw [h]
      rfl
    rw [h2]
    by_cases hmem : ∀ h ∈ cf.headers, CanonicalMIMEHeaderKey h ≠ RemoteAddressHeader
    · have hget : (Header.map (afterSet addr cf.headers m)).Get RemoteAddressHeader
          = (Header.map m).Get RemoteAddressHeader := by
        simp only [Header.Get, canonical_viewer_header]
        rw [afterSet_other addr cf.headers m RemoteAddressHeader hmem]
      have hv2 : viewerAddr
          (Split ((Header.map (afterSet addr cf.headers m)).Get RemoteAddressHeader) ':')
          = .ok (some addr) := by
        rw [hget]
        exact hv
      rw [rewrite_some cf ra _ addr hv2, afterSet_idem]
      rfl
    · have hcount : ((Header.map m).Get RemoteAddressHeader).data.count ':' ≤ 1 := by
        rcases hcond with hc | hc
        · exact absurd hc hmem
        · exact hc
      have hone : ((Header.map m).Get RemoteAddressHeader).data.count ':' = 1 := by
        have hlen := Split_length ((Header.map m).Get RemoteAddressHeader) ':'
        have hge : ¬ (Split ((Header.map m).Get RemoteAddressHeader) ':').length < 2 := by
          intro hlt
          rw [viewerAddr_short _ hlt] at hv
          simp at hv
        omega
      have haddr : addr = String.mk
          (((Header.map m).Get RemoteAddressHeader).data.takeWhile (fun c => c ≠ ':')) := by
        have hs : Split ((Header.map m).Get RemoteAddressHeader) ':'
            = [String.mk (((Header.map m).Get RemoteAddressHeader).data.takeWhile
                (fun c => c ≠ ':')),
              String.mk ((((Header.map m).Get RemoteAddressHeader).data.dropWhile
                (fun c => c ≠ ':')).drop 1)] := by
          simp only [Split, splitAux_one_sep _ _ hone, List.map_cons, List.map_nil]
        rw [hs, viewerAddr_two] at hv
        simp only [Except.ok.injEq, Option.some.injEq] at hv
        exact hv.symm
      have hin : RemoteAddressHeader ∈ cf.headers.map CanonicalMIMEHeaderKey := by
        by_contra hn
        apply hmem
        intro h hh e
        exact hn (List.mem_map.2 ⟨h, hh, e⟩)
      have hget : (Header.map (afterSet addr cf.headers m)).Get RemoteAddressHeader = addr := by
        simp [Header.Get, canonical_viewer_header, afterSet, hin]
      have hno : ':' ∉ addr.data := by
        rw [haddr]
        exact not_mem_takeWhile_ne ':' _
      have hlt : (Split ((Request.mk ra (Header.map (afterSet addr cf.headers m))).Header.Get
          RemoteAddressHeader) ':').length < 2 := by
        simp only [hget]
        rw [Split_of_not_mem _ hno]
        simp
      rw [rewrite_short cf _ hlt]
      rfl

/-- C9, as stated, fails: with `Cloudfront-Viewer-Address` among the configured names,
the ranges `["0.0.0.0/0"]` and the viewer address `"2001:db8::1:4242"`, one run of
`ServeHTTP` leaves `X-Forwarded-For` at `"2001:db8::1"`, and a second run on the same
request cuts once more and leaves it at `"2001:db8:"`. -/
theorem serveHTTP_twice_counterexample :
    New (some (Handler.mk 1)) selfConfig "cloudfront" = .ok selfHandler
      ∧ (ServeHTTP selfHandler
            (testRequest "10.0.0.1" "2001:db8::1:4242")).req.Header.Get "X-Forwarded-For"
          = "2001:db8::1"
      ∧ (ServeHTTP selfHandler
            (ServeHTTP selfHandler
              (testRequest "10.0.0.1" "2001:db8::1:4242")).req).req.Header.Get "X-Forwarded-For"
          = "2001:db8:" := by
  refine ⟨rfl, by decide, by decide⟩

/-- C9, amended: for every handler and every request such that no configured header
name has `Cloudfront-Viewer-Address` as canonical form, or the viewer-address value
contains at most one `':'`, running `ServeHTTP` on the request a first run left (same
peer address) leaves that request, and so its header map, as the first run left it. -/
theorem serveHTTP_idempotent (cf : Cloudfront) (req : Request)
    (hcond : (∀ h ∈ cf.headers, CanonicalMIMEHeaderKey h ≠ RemoteAddressHeader)
      ∨ (req.Header.Get RemoteAddressHeader).data.count ':' ≤ 1) :
    (ServeHTTP cf (ServeHTTP cf req).req).req = (ServeHTTP cf req).req
      ∧ (ServeHTTP cf (ServeHTTP cf req).req).req.Header = (ServeHTTP cf req).req.Header := by
  have hpeer : (ServeHTTP cf req).req.RemoteAddr = req.RemoteAddr := by
    rcases ServeHTTP_cases cf req with h1 | h1 | h1 | h1
    · rw [h1]
      rfl
    · rw [h1]
      rfl
    · rw [h1]
      rfl
    · rw [h1]
      rcases rewrite_cases cf req with ⟨h, _⟩ | ⟨addr, m, _, _, h⟩ <;> rw [h] <;> rfl
  have hmain : (ServeHTTP cf (ServeHTTP cf req).req).req = (ServeHTTP cf req).req := by
    rcases ServeHTTP_cases_peer cf req (ServeHTTP cf req).req hpeer with ⟨p, h1, h2⟩ | ⟨h1, h2⟩
    · rw [h2]
      rfl
    · rw [h2, h1]
      exact rewrite_twice cf req hcond
  exact ⟨hmain, by rw [hmain]⟩

theorem serveHTTP_idempotent_witness :
    (∀ h ∈ (testHandler (some (Handler.mk 1)) [net10]).headers,
        CanonicalMIMEHeaderKey h ≠ RemoteAddressHeader)
      ∧ (ServeHTTP (testHandler (some (Handler.mk 1)) [net10])
            (testRequest "10.0.0.1" "2001:db8::1:4242")).req.Header.Get "X-Forwarded-For"
          = "2001:db8::1"
      ∧ (ServeHTTP (testHandler (some (Handler.mk 1)) [net10])
            (ServeHTTP (testHandler (some (Handler.mk 1)) [net10])
              (testRequest "10.0.0.1" "2001:db8::1:4242")).req).req
          = (ServeHTTP (testHandler (some (Handler.mk 1)) [net10])
              (testRequest "10.0.0.1" "2001:db8::1:4242")).req :=
  ⟨by decide, by decide,
    (serveHTTP_idempotent (testHandler (some (Handler.mk 1)) [net10])
      (testRequest "10.0.0.1" "2001:db8::1:4242") (Or.inl (by decide))).1⟩

theorem replay_sets (addr : String) (headers : List String)
    (m : String → Option (List String)) :
    replay (headers.map (fun h => Event.set h addr)) (.map m)
      = .ok (.map (afterSet addr headers m)) := by
  induction headers generalizing m with
  | nil =>
    have hm : afterSet addr [] m = m := by
      funext k
      simp [afterSet]
    simp [replay, hm]
  | cons h rest ih =>
    simp only [List.map_cons, replay, Header.Set]
    rw [ih]
    have hm : afterSet addr rest
        (fun k => if k = CanonicalMIMEHeaderKey h then some [addr] else m k)
        = afterSet addr (h :: rest) m := by
      funext k
      by_cases h1 : k = CanonicalMIMEHeaderKey h
      · simp [afterSet, h1]
      · by_cases h2 : k ∈ rest.map CanonicalMIMEHeaderKey
        · simp [afterSet, h2]
        · simp only [afterSet, h2, h1, List.map_cons, List.mem_cons, if_false, false_or]
    rw [hm]

theorem callNext_shape (cf : Cloudfront) (p : Path) (req : Request) (hp : p ≠ .aborted) :
    ∃ sets : List Event,
      (callNext cf p req []).trace = sets ++ [.serve cf.next (callNext cf p req []).req]
        ∧ (∀ e ∈ sets, ∃ key value, e = .set key value)
        ∧ replay sets req.Header = .ok (callNext cf p req []).req.Header
        ∧ (callNext cf p req []).req.RemoteAddr = req.RemoteAddr
        ∧ (callNext cf p req []).path ≠ .aborted
        ∧ ((callNext cf p req []).panic = some .nilHandler ↔ cf.next = none)
        ∧ ((callNext cf p req []).panic = none ↔ cf.next ≠ none) := by
  refine ⟨[], rfl, by simp, rfl, rfl, hp, ?_, ?_⟩ <;> cases h : cf.next <;> simp [callNext, h]

/-- C10: on every path through `ServeHTTP` the run stops at one of the five calls of the
next handler (lines 63, 71, 85, 97, 109) and never before; its effects are some calls of
`Header.Set` followed by exactly one call `cf.next.ServeHTTP(rw, req)`, which is the last
effect; the request handed over is the request as `ServeHTTP` leaves it, whose header
map is the one the recorded `Set` calls produce from the map that came in. The run
panics only in that last call, and only when the handler is nil. Each of the five paths
is taken by some request. -/
theorem serveHTTP_calls_next_once_last (cf : Cloudfront) (req : Request) :
    (∃ sets : List Event,
      (ServeHTTP cf req).trace = sets ++ [.serve cf.next (ServeHTTP cf req).req]
        ∧ (∀ e ∈ sets, ∃ key value, e = .set key value)
        ∧ replay sets req.Header = .ok (ServeHTTP cf req).req.Header
        ∧ (ServeHTTP cf req).req.RemoteAddr = req.RemoteAddr
        ∧ (ServeHTTP cf req).path ≠ .aborted
        ∧ ((ServeHTTP cf req).panic = some .nilHandler ↔ cf.next = none)
        ∧ ((ServeHTTP cf req).panic = none ↔ cf.next ≠ none))
      ∧ (ServeHTTP (testHandler (some (Handler.mk 1)) [])
          (testRequest "10.0.0.1" "1.2.3.4:1585")).path = .disabled
      ∧ (ServeHTTP (testHandler (some (Handler.mk 1)) [net10])
          (testRequest "10.0.0.1:443" "1.2.3.4:1585")).path = .badPeer
      ∧ (ServeHTTP (testHandler (some (Handler.mk 1)) [net10])
          (testRequest "100.0.0.1" "1.2.3.4:1585")).path = .untrusted
      ∧ (ServeHTTP (testHandler (some (Handler.mk 1)) [net10])
          (testRequest "10.0.0.1" "1.2.3.4")).path = .badViewer
      ∧ (ServeHTTP (testHandler (some (Handler.mk 1)) [net10])
          (testRequest "10.0.0.1" "1.2.3.4:1585")).path = .rewritten
      ∧ (ServeHTTP (testHandler (some (Handler.mk 1)) [net10])
          (testRequest "10.0.0.1" "1.2.3.4:1585")).trace
        = [.set "X-Forwarded-For" "1.2.3.4", .set "X-Real-IP" "1.2.3.4",
            .serve (some (Handler.mk 1))
              (ServeHTTP (testHandler (some (Handler.mk 1)) [net10])
                (testRequest "10.0.0.1" "1.2.3.4:1585")).req] := by
  refine ⟨?_, by decide, by decide, by decide, by decide, by decide, rfl⟩
  rcases ServeHTTP_cases cf req with h1 | h1 | h1 | h1
  · rw [h1]
    exact callNext_shape cf _ req (by decide)
  · rw [h1]
    exact callNext_shape cf _ req (by decide)
  · rw [h1]
    exact callNext_shape cf _ req (by decide)
  · rw [h1]
    rcases rewrite_cases cf req with ⟨h, _⟩ | ⟨addr, m, hm, _, h⟩
    · rw [h]
      exact callNext_shape cf _ req (by decide)
    · rw [h]
      refine ⟨cf.headers.map (fun h => Event.set h addr), rfl, ?_, ?_, rfl,
        by simp [callNext], ?_, ?_⟩
      · intro e he
        rcases List.mem_map.1 he with ⟨k, _, hk⟩
        exact ⟨k, addr, hk.symm⟩
      · rw [hm]
        exact replay_sets addr cf.headers m
      · cases hn : cf.next <;> simp [callNext, hn]
      · cases hn : cf.next <;> simp [callNext, hn]

/-! ## `New`: failure and success -/

theorem newLoop_ok_iff (l : List String) (acc r : List IPNet) :
    newLoop l acc = .ok r
      ↔ ∃ t, r = acc ++ t ∧ List.Forall₂ (fun s n => ∃ a, ParseCIDR s = .ok (a, n)) l t := by
  induction l generalizing acc r with
  | nil =>
    constructor
    · intro h
      simp only [newLoop, Except.ok.injEq] at h
      exact ⟨[], by simp [h], List.Forall₂.nil⟩
    · rintro ⟨t, ht, hf⟩
      cases hf
      simp [newLoop, ht]
  | cons s rest ih =>
    constructor
    · intro h
      unfold newLoop at h
      cases hp : ParseCIDR s with
      | error e => simp [hp] at h
      | ok p =>
        obtain ⟨a, n⟩ := p
        simp only [hp] at h
        obtain ⟨t, ht, hf⟩ := (ih _ _).1 h
        exact ⟨n :: t, by simp [ht], List.Forall₂.cons ⟨a, hp⟩ hf⟩
    · rintro ⟨t, ht, hf⟩
      cases hf with
      | cons h1 h2 =>
        obtain ⟨a, ha⟩ := h1
        unfold newLoop
        simp only [ha]
        exact (ih _ _).2 ⟨_, by simp [ht], h2⟩

theorem newLoop_error_iff (l : List String) (acc : List IPNet) (e : String) :
    newLoop l acc = .error e
      ↔ ∃ pre s post err, l = pre ++ s :: post
          ∧ (∀ t ∈ pre, ∃ p, ParseCIDR t = .ok p)
          ∧ ParseCIDR s = .error err
          ∧ e = "invalid CIDR " ++ s ++ ": " ++ err.Error := by
  induction l generalizing acc with
  | nil =>
    constructor
    · intro h
      simp [newLoop] at h
    · rintro ⟨pre, s, post, err, hl, _⟩
      simp at hl
  | cons s rest ih =>
    constructor
    · intro h
      unfold newLoop at h
      cases hp : ParseCIDR s with
      | error err =>
        simp only [hp, Except.error.injEq] at h
        exact ⟨[], s, rest, err, rfl, by simp, hp, h.symm⟩
      | ok p =>
        obtain ⟨a, n⟩ := p
        simp only [hp] at h
        obtain ⟨pre, s1, post, err, hl, hpre, hs1, he⟩ := (ih _).1 h
        refine ⟨s :: pre, s1, post, err, by simp [hl], ?_, hs1, he⟩
        intro t ht
        rcases List.mem_cons.1 ht with e1 | e1
        · exact ⟨(a, n), by rw [e1]; exact hp⟩
        · exact hpre t e1
    · rintro ⟨pre, s1, post, err, hl, hpre, hs1, he⟩
      cases pre with
      | nil =>
        simp only [List.nil_append, List.cons.injEq] at hl
        obtain ⟨h1, _⟩ := hl
        subst h1
        unfold newLoop
        simp only [hs1, he]
      | cons p0 pre1 =>
        simp only [List.cons_append, List.cons.injEq] at hl
        obtain ⟨h1, h2⟩ := hl
        subst h1
        obtain ⟨p, hp⟩ := hpre s (by simp)
        obtain ⟨a, n⟩ := p
        unfold newLoop
        simp only [hp]
        exact (ih _).2 ⟨pre1, s1, post, err, h2, fun t ht => hpre t (by simp [ht]), hs1, he⟩

theorem ParseCIDR_error (s : String) (err : ParseError) (h : ParseCIDR s = .error err) :
    err = ParseError.mk "CIDR address" s := by
  unfold ParseCIDR at h
  dsimp only at h
  repeat' split at h
  all_goals first
    | (simp only [Except.error.injEq] at h; exact h.symm)
    | (exact absurd h (by simp))

theorem forall₂_parse_left (l : List String) (t : List IPNet)
    (h : List.Forall₂ (fun s n => ∃ a, ParseCIDR s = .ok (a, n)) l t) :
    ∀ s ∈ l, ∃ p, ParseCIDR s = .ok p := by
  induction h with
  | nil => simp
  | cons h1 _ ih =>
    intro s hs
    rcases List.mem_cons.1 hs with e | e
    · obtain ⟨a, ha⟩ := h1
      exact ⟨_, by rw [e]; exact ha⟩
    · exact ih s e

theorem newLoop_bad : newLoop ["10.0.0.0/8", "zzz", "300.0.0.0/8"] []
    = .error "invalid CIDR zzz: invalid CIDR address: zzz" := by
  rfl

/-- C11: `New` fails if and only if some string of `config.TrustedIPs` is no CIDR for
`net.ParseCIDR`. When it fails there is no handler, and the error message is
`"invalid CIDR <entry>: invalid CIDR address: <entry>"` for the first entry, in list
order, that does not parse. When it succeeds the handler keeps `next`, the header names
and the name, and holds one range per configured string, in the same order, each the
network `ParseCIDR` returns for its string. -/
theorem New_fails_iff_invalid_CIDR (next : Option Handler) (config : Config) (name : String) :
    ((∃ e, New next config name = .error e)
        ↔ ∃ s ∈ config.TrustedIPs, ∃ err, ParseCIDR s = .error err)
      ∧ (∀ e, New next config name = .error e →
          ∃ pre s post, config.TrustedIPs = pre ++ s :: post
            ∧ (∀ t ∈ pre, ∃ p, ParseCIDR t = .ok p)
            ∧ (∃ err, ParseCIDR s = .error err)
            ∧ e = "invalid CIDR " ++ s ++ ": invalid CIDR address: " ++ s)
      ∧ (∀ cf, New next config name = .ok cf →
          cf.next = next ∧ cf.headers = config.Headers ∧ cf.name = name
            ∧ cf.trustedIps.length = config.TrustedIPs.length
            ∧ List.Forall₂ (fun s n => ∃ a, ParseCIDR s = .ok (a, n))
                config.TrustedIPs cf.trustedIps)
      ∧ New next (testConfig ["10.0.0.0/8", "zzz", "300.0.0.0/8"]) name
          = .error "invalid CIDR zzz: invalid CIDR address: zzz"
      ∧ New next (testConfig ["10.0.0.0/8", "0.0.0.0/0"]) "cloudfront"
          = .ok (testHandler next [net10, netAll]) := by
  have herr : ∀ e, New next config name = .error e →
      ∃ pre s post, config.TrustedIPs = pre ++ s :: post
        ∧ (∀ t ∈ pre, ∃ p, ParseCIDR t = .ok p)
        ∧ (∃ err, ParseCIDR s = .error err)
        ∧ e = "invalid CIDR " ++ s ++ ": invalid CIDR address: " ++ s := by
    intro e h
    unfold New at h
    cases hl : newLoop config.TrustedIPs [] with
    | ok t => simp [hl] at h
    | error e1 =>
      simp only [hl, Except.error.injEq] at h
      subst h
      obtain ⟨pre, s, post, err, h1, h2, h3, h4⟩ := (newLoop_error_iff _ _ _).1 hl
      refine ⟨pre, s, post, h1, h2, ⟨err, h3⟩, ?_⟩
      have hlit : (": " : String) ++ "invalid CIDR address: " = ": invalid CIDR address: " := by
        decide
      have hlit2 : ("invalid " : String) ++ "CIDR address" ++ ": " = "invalid CIDR address: " := by
        decide
      rw [h4, ParseCIDR_error s err h3]
      simp only [ParseError.Error, hlit2]
      rw [String.append_assoc, String.append_assoc, ← String.append_assoc ": ", hlit,
        ← String.append_assoc, ← String.append_assoc]
  have hok : ∀ cf, New next config name = .ok cf →
      cf.next = next ∧ cf.headers = config.Headers ∧ cf.name = name
        ∧ cf.trustedIps.length = config.TrustedIPs.length
        ∧ List.Forall₂ (fun s n => ∃ a, ParseCIDR s = .ok (a, n))
            config.TrustedIPs cf.trustedIps := by
    intro cf h
    obtain ⟨h1, h2, h3, h4⟩ := New_ok _ _ _ _ h
    obtain ⟨t, ht, hf⟩ := (newLoop_ok_iff _ _ _).1 h4
    have ht2 : cf.trustedIps = t := by simpa using ht
    rw [ht2]
    exact ⟨h1, h2, h3, hf.length_eq.symm, hf⟩
  refine ⟨?_, herr, hok, ?_, rfl⟩
  · constructor
    · rintro ⟨e, he⟩
      obtain ⟨pre, s, post, h1, _, h3, _⟩ := herr e he
      exact ⟨s, by simp [h1], h3⟩
    · rintro ⟨s, hs, err, hse⟩
      cases hn : New next config name with
      | error e => exact ⟨e, rfl⟩
      | ok cf =>
        obtain ⟨_, _, _, _, hf⟩ := hok cf hn
        obtain ⟨p, hp⟩ := forall₂_parse_left _ _ hf s hs
        rw [hp] at hse
        exact absurd hse (by simp)
  · unfold New
    simp only [testConfig]
    rw [newLoop_bad]

theorem New_fails_iff_invalid_CIDR_witness :
    ∃ e, New none (testConfig ["10.0.0.0/8", "zzz"]) "cloudfront" = .error e :=
  (New_fails_iff_invalid_CIDR none (testConfig ["10.0.0.0/8", "zzz"]) "cloudfront").1.2
    ⟨"zzz", by decide, ParseError.mk "CIDR address" "zzz", rfl⟩

/-! ## What the header loop writes and what it leaves -/

theorem ServeHTTP_eq_rewrite_of_pastGate (cf : Cloudfront) (req : Request)
    (h : (ServeHTTP cf req).path.pastGate = true) : ServeHTTP cf req = rewrite cf req := by
  apply ServeHTTP_eq_rewrite_of_path
  cases hp : (ServeHTTP cf req).path <;> simp [hp, Path.pastGate] at h ⊢

/-- C12: when `ServeHTTP` takes the peer for trusted (the run goes past the trust gate)
and the viewer-address value the request has on entry contains a `':'`, the run ends
at line 109 and afterwards every configured header name holds, under its canonical key,
exactly one value: the client address the switch cut from that entry value. Whatever
the key held before, one value or several, is replaced. Nothing is asked of the list of
names: a name may occur twice, and `Cloudfront-Viewer-Address` may be one of them. -/
theorem serveHTTP_overwrites_configured (cf : Cloudfront) (req : Request)
    (htrust : (ServeHTTP cf req).path.pastGate = true)
    (hcolon : ':' ∈ (req.Header.Get RemoteAddressHeader).data) :
    ∃ addr, viewerAddr (Split (req.Header.Get RemoteAddressHeader) ':') = .ok (some addr)
      ∧ (ServeHTTP cf req).path = .rewritten
      ∧ (∀ h ∈ cf.headers,
          (ServeHTTP cf req).req.Header.values (CanonicalMIMEHeaderKey h) = some [addr])
      ∧ (∀ h ∈ cf.headers, (ServeHTTP cf req).req.Header.Get h = addr) := by
  obtain ⟨addr, ha⟩ := viewerAddr_of_colon _ hcolon
  obtain ⟨hp, _, hg, hv, _⟩ := rewrite_set cf req addr ha
  rw [ServeHTTP_eq_rewrite_of_pastGate cf req htrust]
  exact ⟨addr, ha, hp, hv, hg⟩

theorem serveHTTP_overwrites_configured_witness :
    (ServeHTTP dupHandler presetRequest).path.pastGate = true
      ∧ ':' ∈ (presetRequest.Header.Get RemoteAddressHeader).data
      ∧ presetRequest.Header.values "X-Forwarded-For" = some ["9.9.9.9", "8.8.8.8"]
      ∧ (ServeHTTP dupHandler presetRequest).req.Header.values "X-Forwarded-For"
          = some ["1.2.3.4"]
      ∧ (ServeHTTP dupHandler presetRequest).req.Header.values "Cloudfront-Viewer-Address"
          = some ["1.2.3.4"]
      ∧ ∃ addr,
          viewerAddr (Split (presetRequest.Header.Get RemoteAddressHeader) ':') = .ok (some addr)
            ∧ (ServeHTTP dupHandler presetRequest).path = .rewritten
            ∧ (∀ h ∈ dupHandler.headers,
                (ServeHTTP dupHandler presetRequest).req.Header.values
                  (CanonicalMIMEHeaderKey h) = some [addr])
            ∧ (∀ h ∈ dupHandler.headers,
                (ServeHTTP dupHandler presetRequest).req.Header.Get h = addr) :=
  ⟨by decide, by decide, by decide, by decide, by decide,
    serveHTTP_overwrites_configured dupHandler presetRequest (by decide) (by decide)⟩

/-! ## Peer addresses that carry a port -/

theorem parseIPv4Loop_colon (a rest : List Char) (first prevDot : Bool) (val pos digLen : Nat)
    (fields : List Nat) :
    parseIPv4Loop (a ++ ':' :: rest) first prevDot val pos digLen fields = none := by
  induction a generalizing first prevDot val pos digLen fields with
  | nil =>
    have h1 : isDigit ':' = false := by decide
    have h2 : ¬ (':' : Char) = '.' := by decide
    simp [parseIPv4Loop, h1, h2]
  | cons c cs ih =>
    simp only [List.cons_append, parseIPv4Loop]
    split
    · split
      · rfl
      · split
        · rfl
        · exact ih _ _ _ _ _ _
    · split
      · split
        · rfl
        · split
          · rfl
          · exact ih _ _ _ _ _ _
      · rfl

theorem parseAddrScan_dotted (s l : List Char) (hc : ':' ∉ l) (hp : parseAddrScan s l ≠ none) :
    ∀ s1 tail : List Char, parseAddrScan s1 (l ++ tail) = parseIPv4 s1 := by
  induction l with
  | nil => simp [parseAddrScan] at hp
  | cons c cs ih =>
    intro s1 tail
    have hc1 : c ≠ ':' := fun e => hc (by simp [e])
    have hc2 : ':' ∉ cs := fun e => hc (by simp [e])
    by_cases h1 : c = '.'
    · simp [parseAddrScan, h1]
    · by_cases h2 : c = '%'
      · simp [parseAddrScan, h2] at hp
      · simp only [parseAddrScan, h1, hc1, h2, if_false] at hp
        simp only [List.cons_append, parseAddrScan, h1, hc1, h2, if_false]
        exact ih hc2 hp s1 tail

theorem parseIP_v4_port (a port : String) (hc : ':' ∉ a.data) (ha : ParseIP a ≠ none) :
    ParseIP (a ++ ":" ++ port) = none := by
  have hscan : parseAddrScan a.data a.data ≠ none := by
    intro h
    apply ha
    simp [ParseIP, ParseAddr, h]
  have hd : (a ++ ":" ++ port).data = a.data ++ ':' :: port.data := by
    simp [String.data_append]
  have h4 := parseAddrScan_dotted a.data a.data hc hscan (a.data ++ ':' :: port.data)
    (':' :: port.data)
  simp [ParseIP, ParseAddr, hd, h4, parseIPv4, parseIPv4Fields, parseIPv4Loop_colon]

theorem parseIPv4_bracket (t : List Char) : parseIPv4 ('[' :: t) = none := by
  have h1 : isDigit '[' = false := by decide
  have h2 : ¬ ('[' : Char) = '.' := by decide
  simp [parseIPv4, parseIPv4Fields, parseIPv4Loop, h1, h2]

theorem parseIPv6Loop_bracket (fuel : Nat) (t : List Char) (ip : List Nat) (e : Option Nat)
    (hip : ip.length < 16) : parseIPv6Loop (fuel + 1) ('[' :: t) ip e = none := by
  have h1 : hexVal '[' = none := by decide
  simp [parseIPv6Loop, hip, hexGroup, h1]

theorem parseIPv6_bracket (t : List Char) : parseIPv6 ('[' :: t) = none := by
  have h1 : ('[' : Char) ≠ '%' := by decide
  have h2 : ¬ ('[' : Char) = ':' := by decide
  unfold parseIPv6
  simp only [List.takeWhile, h1, ne_eq, not_false_eq_true, decide_True]
  split
  · rfl
  · split
    · rename_i heq
      simp [h2] at heq
    · rename_i heq
      simp [h2] at heq
    · simp [parseIPv6Loop_bracket]

theorem parseAddrScan_bracket (t l : List Char) : parseAddrScan ('[' :: t) l = none := by
  induction l with
  | nil => rfl
  | cons c cs ih =>
    simp only [parseAddrScan]
    split
    · exact parseIPv4_bracket t
    · split
      · exact parseIPv6_bracket t
      · split
        · rfl
        · exact ih

theorem parseIP_bracket (s : String) (h : s.data.head? = some '[') : ParseIP s = none := by
  cases hd : s.data with
  | nil => simp [hd] at h
  | cons c t =>
    have hc : c = '[' := by simpa [hd] using h
    subst hc
    simp [ParseIP, ParseAddr, hd, parseAddrScan_bracket]

/-- C13, as stated, fails: `"fd00::1"` is an IPv6 literal inside the configured range
`fd00::/8`, and the peer address `"fd00::1:8080"` is that literal followed by `':'` and
the decimal port `8080`; yet the whole string is itself an IPv6 literal, `fd00::1:8080`,
which the range contains, so the peer is trusted and `X-Real-IP`, empty before, is set
to `"1.2.3.4"`. -/
theorem peer_with_port_counterexample :
    ParseIP "fd00::1" = some [253, 0, 0, 0, 0, 0, 0, 0, 0, 0, 0, 0, 0, 0, 0, 1]
      ∧ netFd.Contains [253, 0, 0, 0, 0, 0, 0, 0, 0, 0, 0, 0, 0, 0, 0, 1] = true
      ∧ "fd00::1:8080" = "fd00::1" ++ ":" ++ "8080"
      ∧ New none (testConfig ["fd00::/8"]) "cloudfront" = .ok (testHandler none [netFd])
      ∧ netFd.String ≠ "0.0.0.0/0"
      ∧ ParseIP "fd00::1:8080" = some [253, 0, 0, 0, 0, 0, 0, 0, 0, 0, 0, 0, 0, 1, 128, 128]
      ∧ (testRequest "fd00::1:8080" "1.2.3.4:1585").Header.Get "X-Real-IP" = ""
      ∧ (ServeHTTP (testHandler none [netFd]) (testRequest "fd00::1:8080" "1.2.3.4:1585")).path
          = .rewritten
      ∧ (ServeHTTP (testHandler none [netFd])
          (testRequest "fd00::1:8080" "1.2.3.4:1585")).req.Header.Get "X-Real-IP"
          = "1.2.3.4" := by
  refine ⟨by decide, by decide, by decide, rfl, by decide, by decide, by decide, by decide,
    by decide⟩

/-- C13, amended: when the first parsed range does not print as `"0.0.0.0/0"` and the
peer address is an IPv4 literal followed by `':'` and a port, or an address in brackets
followed by `':'` and a port (the form in which Go's server writes an IPv6 peer), the
peer address is no IP literal for `net.ParseIP`: `ServeHTTP` leaves by line 71, sets no
header and hands the request on as it came, whether or not the address part lies in a
configured range. -/
theorem serveHTTP_peer_with_port (cf : Cloudfront) (req : Request) (first : IPNet)
    (hf : cf.trustedIps[0]? = some first) (hs : first.String ≠ "0.0.0.0/0")
    (hform : (∃ a port : String,
          req.RemoteAddr = a ++ ":" ++ port ∧ ':' ∉ a.data ∧ ParseIP a ≠ none)
        ∨ (∃ a port : String, req.RemoteAddr = "[" ++ a ++ "]:" ++ port)) :
    ParseIP req.RemoteAddr = none
      ∧ (ServeHTTP cf req).path = .badPeer
      ∧ (ServeHTTP cf req).req = req
      ∧ (ServeHTTP cf req).trace = [.serve cf.next req] := by
  have hip : ParseIP req.RemoteAddr = none := by
    rcases hform with ⟨a, port, he, hc, ha⟩ | ⟨a, port, he⟩
    · rw [he]
      exact parseIP_v4_port a port hc ha
    · rw [he]
      apply parseIP_bracket
      simp [String.data_append]
  rw [ServeHTTP_badPeer cf req first hf hs hip]
  exact ⟨hip, rfl, rfl, rfl⟩

theorem serveHTTP_peer_with_port_witness :
    ParseIP "10.0.0.1" = some [0, 0, 0, 0, 0, 0, 0, 0, 0, 0, 255, 255, 10, 0, 0, 1]
      ∧ net10.Contains [0, 0, 0, 0, 0, 0, 0, 0, 0, 0, 255, 255, 10, 0, 0, 1] = true
      ∧ (testRequest "10.0.0.1:443" "1.2.3.4:1585").RemoteAddr = "10.0.0.1" ++ ":" ++ "443"
      ∧ (ServeHTTP (testHandler (some (Handler.mk 1)) [net10])
          (testRequest "10.0.0.1:443" "1.2.3.4:1585")).path = .badPeer
      ∧ (ServeHTTP (testHandler (some (Handler.mk 1)) [net10])
          (testRequest "[fd00::1]:8080" "1.2.3.4:1585")).req
          = testRequest "[fd00::1]:8080" "1.2.3.4:1585" :=
  ⟨parseIP_ten, by decide, by decide,
    (serveHTTP_peer_with_port (testHandler (some (Handler.mk 1)) [net10])
      (testRequest "10.0.0.1:443" "1.2.3.4:1585") net10 rfl net10_string
      (Or.inl ⟨"10.0.0.1", "443", by decide, by decide, by decide⟩)).2.1,
    (serveHTTP_peer_with_port (testHandler (some (Handler.mk 1)) [net10])
      (testRequest "[fd00::1]:8080" "1.2.3.4:1585") net10 rfl net10_string
      (Or.inr ⟨"fd00::1", "8080", by decide⟩)).2.2.1⟩

/-! ## Headers that are not configured -/

theorem upper_of_lower (c : Char) (h : isLower c = true) :
    validHeaderFieldByte (Char.ofNat (c.toNat - 32)) = true
      ∧ isLower (Char.ofNat (c.toNat - 32)) = false := by
  have h1 : 97 ≤ c.toNat ∧ c.toNat ≤ 122 := by simpa [isLower] using h
  generalize c.toNat = n at h1 ⊢
  obtain ⟨lo, hi⟩ := h1
  interval_cases n <;> decide

theorem lower_of_upper (c : Char) (h : isUpper c = true) :
    validHeaderFieldByte (Char.ofNat (c.toNat + 32)) = true
      ∧ isUpper (Char.ofNat (c.toNat + 32)) = false := by
  have h1 : 65 ≤ c.toNat ∧ c.toNat ≤ 90 := by simpa [isUpper] using h
  generalize c.toNat = n at h1 ⊢
  obtain ⟨lo, hi⟩ := h1
  interval_cases n <;> decide

theorem needsCanon_canonLoop (a : List Char) (upper : Bool)
    (hv : a.all validHeaderFieldByte = true) :
    needsCanon (canonLoop a upper) upper = false := by
  induction a generalizing upper with
  | nil => rfl
  | cons c cs ih =>
    simp only [List.all_cons, Bool.and_eq_true] at hv
    obtain ⟨hc, hcs⟩ := hv
    simp only [canonLoop]
    by_cases h1 : (upper && isLower c) = true
    · simp only [h1, if_true]
      have hu : upper = true := by
        cases upper <;> simp at h1 ⊢
      have hl : isLower c = true := by
        cases upper <;> simp at h1 ⊢
        exact h1
      obtain ⟨v1, l1⟩ := upper_of_lower c hl
      subst hu
      simp only [needsCanon, v1, l1]
      simpa using ih _ hcs
    · by_cases h2 : (!upper && isUpper c) = true
      · simp only [h1, h2, if_true, if_false]
        have hu : upper = false := by
          cases upper <;> simp at h2 ⊢
        have hl : isUpper c = true := by
          cases upper <;> simp at h2 ⊢
          exact h2
        obtain ⟨v1, l1⟩ := lower_of_upper c hl
        subst hu
        simp [needsCanon, v1, l1, ih _ hcs]
      · simp only [h1, h2, if_false]
        cases upper
        · simp at h1 h2
          simp [needsCanon, hc, h2, ih _ hcs]
        · simp at h1 h2
          simp [needsCanon, hc, h1, ih _ hcs]

theorem canonical_idem (s : String) :
    CanonicalMIMEHeaderKey (CanonicalMIMEHeaderKey s) = CanonicalMIMEHeaderKey s := by
  by_cases h : needsCanon s.data true = true
  · by_cases hv : s.data.all validHeaderFieldByte = true
    · have e : CanonicalMIMEHeaderKey s = String.mk (canonLoop s.data true) := by
        simp [CanonicalMIMEHeaderKey, h, canonicalMIMEHeaderKey, hv]
      rw [e]
      simp [CanonicalMIMEHeaderKey, needsCanon_canonLoop _ _ hv]
    · have e : CanonicalMIMEHeaderKey s = s := by
        simp [CanonicalMIMEHeaderKey, h, canonicalMIMEHeaderKey, hv]
      rw [e, e]
  · have e : CanonicalMIMEHeaderKey s = s := by
      simp [CanonicalMIMEHeaderKey, h]
    rw [e, e]

theorem ServeHTTP_values_other (cf : Cloudfront) (req : Request) (k : String)
    (hk : ∀ h ∈ cf.headers, CanonicalMIMEHeaderKey h ≠ k) :
    (ServeHTTP cf req).req.Header.values k = req.Header.values k := by
  rcases ServeHTTP_cases cf req with h1 | h1 | h1 | h1
  · rw [h1]
    rfl
  · rw [h1]
    rfl
  · rw [h1]
    rfl
  · rw [h1]
    rcases rewrite_cases cf req with ⟨h, _⟩ | ⟨addr, m, hm, _, h⟩
    · rw [h]
      rfl
    · rw [h]
      simp only [callNext, Header.values, hm]
      exact afterSet_other addr cf.headers m k hk

theorem Get_of_values (h1 h2 : Header) (name : String)
    (h : h1.values (CanonicalMIMEHeaderKey name) = h2.values (CanonicalMIMEHeaderKey name)) :
    h1.Get name = h2.Get name := by
  cases h1 <;> cases h2 <;> simp only [Header.values, Header.Get] at h ⊢
  · rw [← h]
  · rw [h]
  · rw [h]

/-- C14: `ServeHTTP` touches no header but those named in the configuration. For every
handler and every request, a key of the header map that is not the canonical form of a
configured name holds after the run exactly the values it held before, or is absent as
before. So it is for every header read by a name whose canonical form differs from that
of every configured name, and for every key whose canonical form does; in particular
`Cloudfront-Viewer-Address` keeps its values unless a configured name has it as
canonical form. The peer address is left alone too. -/
theorem serveHTTP_touches_only_configured (cf : Cloudfront) (req : Request) :
    (∀ k, (∀ h ∈ cf.headers, CanonicalMIMEHeaderKey h ≠ k) →
        (ServeHTTP cf req).req.Header.values k = req.Header.values k)
      ∧ (∀ name, (∀ h ∈ cf.headers, CanonicalMIMEHeaderKey h ≠ CanonicalMIMEHeaderKey name) →
          (ServeHTTP cf req).req.Header.values (CanonicalMIMEHeaderKey name)
              = req.Header.values (CanonicalMIMEHeaderKey name)
            ∧ (ServeHTTP cf req).req.Header.Get name = req.Header.Get name)
      ∧ (∀ k, (∀ h ∈ cf.headers, CanonicalMIMEHeaderKey h ≠ CanonicalMIMEHeaderKey k) →
          (ServeHTTP cf req).req.Header.values k = req.Header.values k)
      ∧ ((∀ h ∈ cf.headers, CanonicalMIMEHeaderKey h ≠ RemoteAddressHeader) →
          (ServeHTTP cf req).req.Header.values RemoteAddressHeader
              = req.Header.values RemoteAddressHeader
            ∧ (ServeHTTP cf req).req.Header.Get RemoteAddressHeader
              = req.Header.Get RemoteAddressHeader)
      ∧ (ServeHTTP cf req).req.RemoteAddr = req.RemoteAddr := by
  refine ⟨ServeHTTP_values_other cf req, ?_, ?_, ?_, ?_⟩
  · intro name hn
    have hv := ServeHTTP_values_other cf req (CanonicalMIMEHeaderKey name) hn
    exact ⟨hv, Get_of_values _ _ name hv⟩
  · intro k hk
    apply ServeHTTP_values_other cf req k
    intro h hh e
    apply hk h hh
    rw [← e, canonical_idem]
  · intro hn
    have hv := ServeHTTP_values_other cf req RemoteAddressHeader hn
    refine ⟨hv, Get_of_values _ _ RemoteAddressHeader ?_⟩
    rw [canonical_viewer_header]
    exact hv
  · rcases ServeHTTP_cases cf req with h1 | h1 | h1 | h1
    · rw [h1]
      rfl
    · rw [h1]
      rfl
    · rw [h1]
      rfl
    · rw [h1]
      rcases rewrite_cases cf req with ⟨h, _⟩ | ⟨addr, m, _, _, h⟩ <;> rw [h] <;> rfl

theorem serveHTTP_touches_only_configured_witness :
    (∀ h ∈ (testHandler (some (Handler.mk 1)) [net10]).headers,
        CanonicalMIMEHeaderKey h ≠ RemoteAddressHeader)
      ∧ (ServeHTTP (testHandler (some (Handler.mk 1)) [net10])
          (testRequest "10.0.0.1" "1.2.3.4:1585")).path = .rewritten
      ∧ (testRequest "10.0.0.1" "1.2.3.4:1585").Header.values RemoteAddressHeader
          = some ["1.2.3.4:1585"]
      ∧ (ServeHTTP (testHandler (some (Handler.mk 1)) [net10])
          (testRequest "10.0.0.1" "1.2.3.4:1585")).req.Header.values RemoteAddressHeader
          = (testRequest "10.0.0.1" "1.2.3.4:1585").Header.values RemoteAddressHeader :=
  ⟨by decide, by decide, by decide,
    ((serveHTTP_touches_only_configured (testHandler (some (Handler.mk 1)) [net10])
      (testRequest "10.0.0.1" "1.2.3.4:1585")).2.2.2.1 (by decide)).1⟩

/-! ## Totality -/

theorem ServeHTTP_forwards (cf : Cloudfront) (req : Request) :
    ∃ sets : List Event,
      (ServeHTTP cf req).trace = sets ++ [.serve cf.next (ServeHTTP cf req).req]
        ∧ (ServeHTTP cf req).path ≠ .aborted
        ∧ ((ServeHTTP cf req).panic = none ↔ cf.next ≠ none) := by
  rcases ServeHTTP_cases cf req with h1 | h1 | h1 | h1
  · rw [h1]
    obtain ⟨sets, h2, _, _, _, h3, _, h4⟩ := callNext_shape cf .disabled req (by decide)
    exact ⟨sets, h2, h3, h4⟩
  · rw [h1]
    obtain ⟨sets, h2, _, _, _, h3, _, h4⟩ := callNext_shape cf .badPeer req (by decide)
    exact ⟨sets, h2, h3, h4⟩
  · rw [h1]
    obtain ⟨sets, h2, _, _, _, h3, _, h4⟩ := callNext_shape cf .untrusted req (by decide)
    exact ⟨sets, h2, h3, h4⟩
  · rw [h1]
    rcases rewrite_cases cf req with ⟨h, _⟩ | ⟨addr, m, _, _, h⟩
    · rw [h]
      obtain ⟨sets, h2, _, _, _, h3, _, h4⟩ := callNext_shape cf .badViewer req (by decide)
      exact ⟨sets, h2, h3, h4⟩
    · rw [h]
      refine ⟨cf.headers.map (fun h => Event.set h addr), rfl, by simp [callNext], ?_⟩
      cases hn : cf.next <;> simp [callNext, hn]

theorem sliceTo_all_but_last {α : Type} (s : List α) (h : 3 ≤ s.length) :
    sliceTo s ((s.length : Int) - 1) = .ok (s.take (s.length - 1)) := by
  have h3 : (0 : Int) ≤ (s.length : Int) - 1 ∧ (s.length : Int) - 1 ≤ (s.length : Int) := by
    omega
  have h4 : ((s.length : Int) - 1).toNat = s.length - 1 := by omega
  simp [sliceTo, h3, h4]

/-- C15: `ServeHTTP` is total on every handler that `New` returns with a non-nil next
handler. For every request, the nil header map included, the run ends without a panic
at one of its calls of the next handler, which is its last effect. The index
`cf.trustedIps[0]` is read only behind the length check and is then in bounds, the
switch never fails, and the slice `split[0:len(split)-1]` of its default case is in
bounds. An empty range set, an empty or colon-only viewer address, a malformed peer
address and a nil header map all end in the call of the next handler. -/
theorem serveHTTP_total (next : Handler) (config : Config) (name : String) (cf : Cloudfront)
    (req : Request) (hnew : New (some next) config name = .ok cf) :
    (ServeHTTP cf req).panic = none
      ∧ (ServeHTTP cf req).path ≠ .aborted
      ∧ (∃ sets : List Event,
          (ServeHTTP cf req).trace = sets ++ [.serve (some next) (ServeHTTP cf req).req])
      ∧ (cf.trustedIps.length ≠ 0 → ∃ first, cf.trustedIps[0]? = some first)
      ∧ (∀ split : List String, ∃ r, viewerAddr split = .ok r)
      ∧ (∀ split : List String, 3 ≤ split.length →
          sliceTo split ((split.length : Int) - 1) = .ok (split.take (split.length - 1)))
      ∧ ((ServeHTTP (testHandler (some (Handler.mk 1)) [])
            (testRequest "10.0.0.1" "1.2.3.4:1585")).panic = none
          ∧ (ServeHTTP (testHandler (some (Handler.mk 1)) [])
            (testRequest "10.0.0.1" "1.2.3.4:1585")).path = .disabled)
      ∧ ((ServeHTTP (testHandler (some (Handler.mk 1)) [netAll])
            (testRequest "10.0.0.1" "")).panic = none
          ∧ (ServeHTTP (testHandler (some (Handler.mk 1)) [netAll])
            (testRequest "10.0.0.1" "")).path = .badViewer)
      ∧ ((ServeHTTP (testHandler (some (Handler.mk 1)) [netAll])
            (testRequest "10.0.0.1" ":")).panic = none
          ∧ (ServeHTTP (testHandler (some (Handler.mk 1)) [netAll])
            (testRequest "10.0.0.1" ":")).path = .rewritten)
      ∧ ((ServeHTTP (testHandler (some (Handler.mk 1)) [net10])
            (testRequest "not an IP" ":")).panic = none
          ∧ (ServeHTTP (testHandler (some (Handler.mk 1)) [net10])
            (testRequest "not an IP" ":")).path = .badPeer)
      ∧ ((ServeHTTP (testHandler (some (Handler.mk 1)) [netAll])
            (Request.mk "10.0.0.1" .nilMap)).panic = none
          ∧ (ServeHTTP (testHandler (some (Handler.mk 1)) [netAll])
            (Request.mk "10.0.0.1" .nilMap)).path = .badViewer) := by
  obtain ⟨hn, _, _, _⟩ := New_ok _ _ _ _ hnew
  obtain ⟨sets, h1, h2, h3⟩ := ServeHTTP_forwards cf req
  refine ⟨h3.2 (by simp [hn]), h2, ⟨sets, by rw [h1, hn]⟩, ?_, viewerAddr_total,
    fun split h => sliceTo_all_but_last split h, ⟨by decide, by decide⟩, ⟨by decide, by decide⟩,
    ⟨by decide, by decide⟩, ⟨by decide, by decide⟩, ⟨by decide, by decide⟩⟩
  intro hlen
  cases hc : cf.trustedIps with
  | nil => simp [hc] at hlen
  | cons a rest => exact ⟨a, by simp⟩

theorem serveHTTP_total_witness :
    New (some (Handler.mk 1)) (testConfig ["10.0.0.0/8"]) "cloudfront"
        = .ok (testHandler (some (Handler.mk 1)) [net10])
      ∧ (ServeHTTP (testHandler (some (Handler.mk 1)) [net10])
          (testRequest "10.0.0.1" "1::9:4242")).panic = none
      ∧ (ServeHTTP (testHandler (some (Handler.mk 1)) [net10])
          (testRequest "10.0.0.1" "1::9:4242")).path = .rewritten :=
  ⟨rfl,
    (serveHTTP_total (Handler.mk 1) (testConfig ["10.0.0.0/8"]) "cloudfront"
      (testHandler (some (Handler.mk 1)) [net10]) (testRequest "10.0.0.1" "1::9:4242") rfl).1,
    by decide⟩

/-! ## The switch cuts at the last colon -/

theorem Join_data (fs : List (List Char)) (sep : String) :
    (Join (fs.map String.mk) sep).data = joinChars fs sep.data := by
  induction fs with
  | nil => rfl
  | cons a rest ih =>
    cases rest with
    | nil => rfl
    | cons b rest2 =>
      simp only [List.map_cons, Join, joinChars, String.data_append]
      simp only [List.map_cons] at ih
      rw [ih]

theorem splitAux_ne_nil (sep : Char) (l cur : List Char) : splitAux sep l cur ≠ [] := by
  intro h
  have := splitAux_length sep l cur
  rw [h] at this
  simp at this

theorem joinChars_cons (a : List Char) (rest : List (List Char)) (sep : List Char)
    (h : rest ≠ []) : joinChars (a :: rest) sep = a ++ sep ++ joinChars rest sep := by
  cases rest with
  | nil => exact absurd rfl h
  | cons b rest2 => rfl

theorem joinChars_splitAux (sep : Char) (l cur : List Char) :
    joinChars (splitAux sep l cur) [sep] = cur.reverse ++ l := by
  induction l generalizing cur with
  | nil => simp [splitAux, joinChars]
  | cons c cs ih =>
    by_cases h : c = sep
    · subst h
      simp only [splitAux, if_true]
      rw [joinChars_cons _ _ _ (splitAux_ne_nil _ _ _), ih]
      simp
    · simp only [splitAux, h, if_false]
      rw [ih]
      simp

theorem joinChars_append_singleton (xs : List (List Char)) (y sep : List Char) (h : xs ≠ []) :
    joinChars (xs ++ [y]) sep = joinChars xs sep ++ sep ++ y := by
  induction xs with
  | nil => exact absurd rfl h
  | cons a rest ih =>
    cases rest with
    | nil => simp [joinChars]
    | cons b rest2 =>
      have hne : b :: rest2 ≠ [] := by simp
      rw [List.cons_append, joinChars_cons _ _ _ (by simp), ih hne,
        joinChars_cons _ _ _ hne]
      simp

theorem viewerAddr_ge_two (split : List String) (h : 2 ≤ split.length) :
    viewerAddr split = .ok (some (Join (split.take (split.length - 1)) ":")) := by
  by_cases h2 : split.length = 2
  · match split, h2 with
    | [a, b], _ => simp [viewerAddr_two, Join]
  · exact viewerAddr_long split (by omega)

theorem dropWhile_append_stop (p : Char → Bool) (xs ys : List Char) (y : Char)
    (hxs : ∀ x ∈ xs, p x = true) (hy : p y = false) :
    (xs ++ y :: ys).dropWhile p = y :: ys := by
  induction xs with
  | nil => simp [List.dropWhile, hy]
  | cons a rest ih =>
    have ha : p a = true := hxs a (by simp)
    simp only [List.cons_append, List.dropWhile, ha]
    exact ih (fun x hx => hxs x (by simp [hx]))

theorem takeWhile_append_stop (p : Char → Bool) (xs ys : List Char) (y : Char)
    (hxs : ∀ x ∈ xs, p x = true) (hy : p y = false) :
    (xs ++ y :: ys).takeWhile p = xs := by
  induction xs with
  | nil => simp [List.takeWhile, hy]
  | cons a rest ih =>
    have ha : p a = true := hxs a (by simp)
    simp only [List.cons_append, List.takeWhile, ha]
    exact congrArg (List.cons a) (ih (fun x hx => hxs x (by simp [hx])))

theorem cut_at_last_colon (a l : List Char) (hl : ':' ∉ l) :
    beforeLastColon (String.mk (a ++ ':' :: l)) = String.mk a
      ∧ afterLastColon (String.mk (a ++ ':' :: l)) = String.mk l := by
  have hrev : (a ++ ':' :: l).reverse = l.reverse ++ ':' :: a.reverse := by simp
  have hp : ∀ x ∈ l.reverse, (fun c : Char => decide (c ≠ ':')) x = true := by
    intro x hx
    have : x ∈ l := List.mem_reverse.1 hx
    have hne : x ≠ ':' := fun e => hl (e ▸ this)
    simpa using hne
  have hq : (fun c : Char => decide (c ≠ ':')) ':' = false := by simp
  constructor
  · simp only [beforeLastColon, hrev]
    rw [dropWhile_append_stop _ _ _ _ hp hq]
    simp
  · simp only [afterLastColon, hrev]
    rw [takeWhile_append_stop _ _ _ _ hp hq]
    simp
/-- C16: the switch on the number of fragments cuts the viewer address at its last
colon. For every value `v` that contains a `':'`, the switch yields a client address
`addr`, and with `last` the last fragment of the split, `addr ++ ":" ++ last = v` and
`last` contains no `':'`; so `addr` is the text of `v` before its last `':'` and `last`
the text after it. -/
theorem viewerAddr_cuts_at_last_colon (v : String) (h : ':' ∈ v.data) :
    ∃ addr last, viewerAddr (Split v ':') = .ok (some addr)
      ∧ (Split v ':').getLast? = some last
      ∧ addr ++ ":" ++ last = v
      ∧ ':' ∉ last.data
      ∧ addr = beforeLastColon v
      ∧ last = afterLastColon v := by
  have hne : splitAux ':' v.data [] ≠ [] := splitAux_ne_nil _ _ _
  have hlen : 2 ≤ (splitAux ':' v.data []).length := by
    rw [splitAux_length]
    have := List.count_pos_iff.2 h
    omega
  have hsplit : splitAux ':' v.data []
      = (splitAux ':' v.data []).dropLast ++ [(splitAux ':' v.data []).getLast hne] :=
    (List.dropLast_append_getLast hne).symm
  have hinit : (splitAux ':' v.data []).dropLast ≠ [] := by
    intro h0
    have hl := congrArg List.length h0
    rw [List.length_dropLast] at hl
    simp only [List.length_nil] at hl
    omega
  have hlast : ':' ∉ (splitAux ':' v.data []).getLast hne :=
    splitAux_fragment_no_sep ':' v.data [] (by simp) _ (List.getLast_mem hne)
  have hdata : v.data = joinChars (splitAux ':' v.data []).dropLast [':'] ++ ':' ::
      (splitAux ':' v.data []).getLast hne := by
    have hj := joinChars_splitAux ':' v.data []
    rw [hsplit, joinChars_append_singleton _ _ _ hinit] at hj
    simpa using hj.symm
  have haddr : viewerAddr (Split v ':')
      = .ok (some (String.mk (joinChars (splitAux ':' v.data []).dropLast [':']))) := by
    rw [viewerAddr_ge_two _ (by simpa [Split] using hlen)]
    have htake : (Split v ':').take ((Split v ':').length - 1)
        = (splitAux ':' v.data []).dropLast.map String.mk := by
      simp only [Split, List.length_map, ← List.map_take, List.dropLast_eq_take]
    rw [htake]
    have hd := Join_data (splitAux ':' v.data []).dropLast ":"
    have : Join ((splitAux ':' v.data []).dropLast.map String.mk) ":"
        = String.mk (joinChars (splitAux ':' v.data []).dropLast [':']) := by
      apply String.ext
      rw [hd]
    rw [this]
  have hv : v = String.mk (joinChars (splitAux ':' v.data []).dropLast [':'] ++ ':' ::
      (splitAux ':' v.data []).getLast hne) := by
    apply String.ext
    exact hdata
  obtain ⟨hb, ha⟩ := cut_at_last_colon (joinChars (splitAux ':' v.data []).dropLast [':'])
    ((splitAux ':' v.data []).getLast hne) hlast
  refine ⟨String.mk (joinChars (splitAux ':' v.data []).dropLast [':']),
    String.mk ((splitAux ':' v.data []).getLast hne), haddr, ?_, ?_, hlast, ?_, ?_⟩
  · simp only [Split, List.getLast?_map, List.getLast?_eq_getLast _ hne, Option.map_some']
  · apply String.ext
    have hcat : (String.mk (joinChars (splitAux ':' v.data []).dropLast [':']) ++ ":"
        ++ String.mk ((splitAux ':' v.data []).getLast hne)).data
        = joinChars (splitAux ':' v.data []).dropLast [':'] ++ ':' ::
          (splitAux ':' v.data []).getLast hne := by
      simp [String.data_append]
    exact hcat.trans hdata.symm
  · exact ((congrArg beforeLastColon hv).trans hb).symm
  · exact ((congrArg afterLastColon hv).trans ha).symm

theorem viewerAddr_cuts_at_last_colon_witness :
    ':' ∈ ("1::9:4242" : String).data
      ∧ beforeLastColon "1::9:4242" = "1::9"
      ∧ afterLastColon "1::9:4242" = "4242"
      ∧ ∃ addr last, viewerAddr (Split "1::9:4242" ':') = .ok (some addr)
          ∧ (Split "1::9:4242" ':').getLast? = some last
          ∧ addr ++ ":" ++ last = "1::9:4242"
          ∧ ':' ∉ last.data
          ∧ addr = beforeLastColon "1::9:4242"
          ∧ last = afterLastColon "1::9:4242" :=
  ⟨by decide, by decide, by decide, viewerAddr_cuts_at_last_colon "1::9:4242" (by decide)⟩

/-! ## Appending a range -/

theorem newLoop_concat (l1 l2 : List String) (acc : List IPNet) :
    newLoop (l1 ++ l2) acc
      = match newLoop l1 acc with
        | .error e => .error e
        | .ok t => newLoop l2 t := by
  induction l1 generalizing acc with
  | nil => simp [newLoop]
  | cons s rest ih =>
    simp only [List.cons_append, newLoop]
    cases hp : ParseCIDR s with
    | error e => simp
    | ok p =>
      obtain ⟨a, n⟩ := p
      simp only []
      exact ih _

theorem rewrite_congr (cf cf1 : Cloudfront) (req : Request)
    (hh : cf1.headers = cf.headers) (hn : cf1.next = cf.next) :
    rewrite cf1 req = rewrite cf req := by
  simp [rewrite, callNext, hh, hn]

theorem trustedLoop_append (l : List IPNet) (n : IPNet) (ip : IP)
    (h : trustedLoop l ip = true) : trustedLoop (l ++ [n]) ip = true := by
  obtain ⟨a, ha, hc⟩ := (trustedLoop_iff l ip).1 h
  exact (trustedLoop_iff _ ip).2 ⟨a, by simp [ha], hc⟩

theorem ServeHTTP_append_range (cf cf1 : Cloudfront) (req : Request) (n : IPNet)
    (hh : cf1.headers = cf.headers) (hn : cf1.next = cf.next)
    (ht : cf1.trustedIps = cf.trustedIps ++ [n])
    (hg : (ServeHTTP cf req).path.pastGate = true) :
    ServeHTTP cf1 req = ServeHTTP cf req := by
  have h0 := ServeHTTP_eq_rewrite_of_pastGate cf req hg
  rw [h0, ← rewrite_congr cf cf1 req hh hn]
  cases hc : cf.trustedIps with
  | nil =>
    rw [ServeHTTP_disabled cf req hc] at hg
    simp [callNext, Path.pastGate] at hg
  | cons first rest =>
    have hf : cf.trustedIps[0]? = some first := by simp [hc]
    have hf1 : cf1.trustedIps[0]? = some first := by simp [ht, hc]
    by_cases hs : first.String = "0.0.0.0/0"
    · exact ServeHTTP_sentinel cf1 req first hf1 hs
    · cases hip : ParseIP req.RemoteAddr with
      | none =>
        rw [ServeHTTP_badPeer cf req first hf hs hip] at hg
        simp [callNext, Path.pastGate] at hg
      | some remoteIP =>
        cases hl : trustedLoop cf.trustedIps remoteIP with
        | false =>
          rw [ServeHTTP_untrusted cf req first remoteIP hf hs hip hl] at hg
          simp [callNext, Path.pastGate] at hg
        | true =>
          exact ServeHTTP_trusted cf1 req first remoteIP hf1 hs hip
            (by rw [ht]; exact trustedLoop_append _ n _ hl)

/-- C17: appending a range never revokes trust. When `New` builds a handler from the
ranges `R` and another from `R` followed by one more string `r` (both lists valid, same
header names and next handler), then for every request that the first handler takes
for trusted, the second does so too, and its run is the same: same path, same request
left, same effects. Prepending is different, because only the first range is compared
with the sentinel: `["0.0.0.0/0"]` trusts the peer `"not an IP"`, and
`["10.0.0.0/8", "0.0.0.0/0"]` does not. -/
theorem appending_range_keeps_trust (next : Option Handler) (headers R : List String)
    (r name name1 : String) (cf cf1 : Cloudfront) (req : Request)
    (h0 : New next (Config.mk headers R) name = .ok cf)
    (h1 : New next (Config.mk headers (R ++ [r])) name1 = .ok cf1)
    (hg : (ServeHTTP cf req).path.pastGate = true) :
    ((ServeHTTP cf1 req).path.pastGate = true
        ∧ (ServeHTTP cf1 req).path = (ServeHTTP cf req).path
        ∧ (ServeHTTP cf1 req).req = (ServeHTTP cf req).req
        ∧ (ServeHTTP cf1 req).trace = (ServeHTTP cf req).trace)
      ∧ New none (testConfig ["0.0.0.0/0"]) "cloudfront" = .ok (testHandler none [netAll])
      ∧ New none (testConfig ["10.0.0.0/8", "0.0.0.0/0"]) "cloudfront"
          = .ok (testHandler none [net10, netAll])
      ∧ (ServeHTTP (testHandler none [netAll])
          (testRequest "not an IP" "1.2.3.4:1585")).path.pastGate = true
      ∧ (ServeHTTP (testHandler none [net10, netAll])
          (testRequest "not an IP" "1.2.3.4:1585")).path.pastGate = false := by
  refine ⟨?_, rfl, rfl, by decide, by decide⟩
  obtain ⟨hn, hh, _, hl⟩ := New_ok _ _ _ _ h0
  obtain ⟨hn1, hh1, _, hl1⟩ := New_ok _ _ _ _ h1
  simp only [] at hl hl1 hh hh1
  rw [newLoop_concat, hl] at hl1
  simp only [] at hl1
  obtain ⟨t, ht, hlen⟩ := newLoop_append _ _ _ hl1
  have ht1 : ∃ n, cf1.trustedIps = cf.trustedIps ++ [n] := by
    cases t with
    | nil => simp at hlen
    | cons n t2 =>
      cases t2 with
      | nil => exact ⟨n, ht⟩
      | cons _ _ => simp at hlen
  obtain ⟨n, hn2⟩ := ht1
  have he := ServeHTTP_append_range cf cf1 req n (by rw [hh1, hh]) (by rw [hn1, hn]) hn2 hg
  rw [he]
  exact ⟨hg, rfl, rfl, rfl⟩

theorem appending_range_keeps_trust_witness :
    New (some (Handler.mk 1)) (Config.mk ["X-Forwarded-For", "X-Real-IP"] ["10.0.0.0/8"])
        "cloudfront" = .ok (testHandler (some (Handler.mk 1)) [net10])
      ∧ New (some (Handler.mk 1))
          (Config.mk ["X-Forwarded-For", "X-Real-IP"] (["10.0.0.0/8"] ++ ["fd00::/8"]))
          "cloudfront" = .ok (testHandler (some (Handler.mk 1)) [net10, netFd])
      ∧ (ServeHTTP (testHandler (some (Handler.mk 1)) [net10])
          (testRequest "10.0.0.1" "1.2.3.4:1585")).path.pastGate = true
      ∧ (ServeHTTP (testHandler (some (Handler.mk 1)) [net10, netFd])
          (testRequest "10.0.0.1" "1.2.3.4:1585")).path.pastGate = true :=
  ⟨rfl, rfl, by decide,
    (appending_range_keeps_trust (some (Handler.mk 1)) ["X-Forwarded-For", "X-Real-IP"]
      ["10.0.0.0/8"] "fd00::/8" "cloudfront" "cloudfront"
      (testHandler (some (Handler.mk 1)) [net10])
      (testHandler (some (Handler.mk 1)) [net10, netFd])
      (testRequest "10.0.0.1" "1.2.3.4:1585") rfl rfl (by decide)).1.1⟩

end TraefikCloudfront
